import Mathlib

/-!
Verification development for the `cxx` zero-configuration C++ build tool
(single Go source file `main.go`).  The build planner, staleness cache,
header resolver and package-hint engine are embedded shallowly: pure Go
functions become Lean functions on `String`/`List`; the filesystem, the
external compiler/linker, produced test binaries, `pkg-config` and file
contents are modelled as explicit state (`BuildState`) plus oracles
(`World`).  Modification times are modelled as `Int` (Go `int64` seconds;
no overflow is exercised).  `runtime.GOOS` is modelled as `linux` (the
non-`windows` branches), matching the platform the tool documents.
-/

set_option autoImplicit false
set_option maxRecDepth 4096

namespace Cxx

/-! ## String helpers mirroring the Go standard library -/

/-- Does the first list start with the second one?  (`strings.HasPrefix` on
`List Char`.) -/
def chListStartsWith : List Char → List Char → Bool
  | _, [] => true
  | [], _ :: _ => false
  | c :: cs, p :: ps => c == p && chListStartsWith cs ps

/-- Is `needle` a contiguous infix of the second list?  Backs
`strings.Contains`. -/
def chIsInfix (needle : List Char) : List Char → Bool
  | [] => needle.isEmpty
  | c :: t => chListStartsWith (c :: t) needle || chIsInfix needle t

/-- `strings.Contains s sub`. -/
def goContains (s sub : String) : Bool :=
  chIsInfix sub.data s.data

/-- `strings.HasPrefix s p`. -/
def strStarts (s p : String) : Bool :=
  chListStartsWith s.data p.data

/-- `strings.HasSuffix s suf`. -/
def goHasSuffix (s suf : String) : Bool :=
  chListStartsWith s.data.reverse suf.data.reverse

/-- Go string concatenation `a + b`. -/
def strCat (a b : String) : String :=
  String.mk (a.data ++ b.data)

/-- `strings.TrimSuffix s suf`. -/
def goTrimSuffix (s suf : String) : String :=
  if goHasSuffix s suf then String.mk (s.data.take (s.data.length - suf.data.length)) else s

/-- `strings.TrimPrefix s p` (drops one occurrence of the leading `p`). -/
def goTrimPfx (s p : String) : String :=
  if strStarts s p then String.mk (s.data.drop p.data.length) else s

/-- ASCII lower-casing of one character (`strings.ToLower` acts
character-wise on the ASCII names used here). -/
def lowerChar (c : Char) : Char :=
  if 65 ≤ c.toNat ∧ c.toNat ≤ 90 then Char.ofNat (c.toNat + 32) else c

/-- `strings.ToLower`. -/
def goToLower (s : String) : String :=
  String.mk (s.data.map lowerChar)

/-- `filepath.Base`: last element of the path, after dropping trailing
slashes; `"."` for the empty path, `"/"` for all-slash paths. -/
def goBase (p : String) : String :=
  if p.data.isEmpty then "." else
  let cs := p.data.reverse.dropWhile (fun c => c == '/')
  if cs.isEmpty then "/" else String.mk ((cs.takeWhile (fun c => c != '/')).reverse)

/-- Scan the reversed character list for the last dot of the final path
element; `acc` holds the already-passed characters in original order. -/
def goExtAux : List Char → List Char → String
  | [], _ => ""
  | c :: rest, acc =>
    if c == '/' then ""
    else if c == '.' then String.mk (c :: acc)
    else goExtAux rest (c :: acc)

/-- `filepath.Ext`: suffix starting at the final dot of the final path
element, `""` when that element has no dot. -/
def goExt (p : String) : String :=
  goExtAux p.data.reverse []

/-- `strings.Join` with a separator. -/
def strJoin (sep : String) : List String → String
  | [] => ""
  | [x] => x
  | x :: y :: xs => x ++ sep ++ strJoin sep (y :: xs)

/-- Accumulator step for `goFields`; `acc` is the current field reversed. -/
def fieldsAux : List Char → List Char → List String
  | [], acc => if acc.isEmpty then [] else [String.mk acc.reverse]
  | c :: rest, acc =>
    if c == ' ' || c == '\t' || c == '\n' || c == '\r' then
      if acc.isEmpty then fieldsAux rest [] else String.mk acc.reverse :: fieldsAux rest []
    else fieldsAux rest (c :: acc)

/-- `strings.Fields`: whitespace-separated tokens, empty tokens dropped.
`runCommand` tokenizes every assembled command line with this before
invoking the external process. -/
def goFields (s : String) : List String :=
  fieldsAux s.data []

/-- `filepath.Join dir name` for the directory lists this tool uses: `"."`
joins to the bare name (Go cleans the result), every other directory is
joined with a slash.  Path-segment cleaning of `name` itself (`..`, `//`)
is not modelled; the filesystem oracle is arbitrary, so only the shape of
the lookup matters. -/
def goJoin (d p : String) : String :=
  if d == "." then p else d ++ "/" ++ p

/-- Does the string end in `".o"`?  Derived object artifacts always do,
discovered sources (ending in `.c`/`.cc`/`.cpp`/`.cxx`) never do. -/
def endsInDotO (s : String) : Bool :=
  chListStartsWith s.data.reverse ['o', '.']

/-- Does the string end in a slash?  Paths produced by the directory walk
never do. -/
def lastIsSlash (s : String) : Bool :=
  match s.data.reverse with
  | [] => false
  | c :: _ => c == '/'

/-! ## Data model -/

/-- The fields of Go's `Options` that the modelled core reads.  The
`version`/`clean`/`pro`/`run`/`clang` modes and argument parsing are
outside the specified core (spec §1) and are not modelled. -/
structure Options where
  cxx : String
  std : String
  win64Docker : Bool
  debug : Bool
  strict : Bool
  sloppy : Bool
  opt : Bool
  test : Bool
  detectedDistro : String
  mainSource : String
  outputName : String
  sources : List String
  testSources : List String
  includeDirs : List String
  systemIncludeDirs : List String
  extraCFlags : List String
  extraLDFlags : List String
deriving DecidableEq, Repr

/-- Observable actions of one build run, in order. -/
inductive Event where
  /-- `needsRebuild` was consulted for this source (entry to `compileOne`). -/
  | evalSrc (src : String)
  /-- The compiler was invoked to compile `src` into `obj`. -/
  | compile (src obj : String)
  /-- `updateTimestamp` recorded mtime `t` for `src` in the cache. -/
  | cacheUpdate (src : String) (t : Int)
  /-- The linker was invoked on `objs` producing `out`. -/
  | link (objs : List String) (out : String)
  /-- A produced executable was run directly. -/
  | runExe (exe : String)
  /-- A single-step compile-and-link command line was issued. -/
  | cmd (line : String)
deriving DecidableEq, Repr

/-- Oracles for the external collaborators: exit status of a tokenized
command line (`runCommand`), exit status of a directly executed produced
binary, `pkg-config` output for a package (already trimmed; `none` models
tool absence or failure), and source-file contents (`os.ReadFile`). -/
structure World where
  runCmdOk : String → Bool
  runExeOk : String → Bool
  pkgConfig : String → Option String
  contents : String → Option String

/-- State threaded through one build run: regular files with their mtimes,
the staleness cache (`CompileCache.Timestamps`), a clock supplying the
mtime of each newly written file, the event trace, and whether the cache
was persisted (`saveCache`). -/
structure BuildState where
  fs : List (String × Int)
  cache : List (String × Int)
  clock : Int
  events : List Event
  cacheSaved : Bool
deriving DecidableEq, Repr

/-- Association-list lookup (first match). -/
def alookup : List (String × Int) → String → Option Int
  | [], _ => none
  | (k, v) :: t, key => if k == key then some v else alookup t key

/-- Association-list insert-or-overwrite. -/
def ainsert (k : String) (v : Int) : List (String × Int) → List (String × Int)
  | [] => [(k, v)]
  | (a, b) :: t => if a == k then (k, v) :: t else (a, b) :: ainsert k v t

/-- `fileExists`: the model's `fs` lists exactly the regular files. -/
def fileExistsM (fs : List (String × Int)) (p : String) : Bool :=
  (alookup fs p).isSome

/-- Go map indexing `cc.Timestamps[src]`: zero value `0` when absent. -/
def cacheGet (cache : List (String × Int)) (k : String) : Int :=
  (alookup cache k).getD 0

/-! ## Embeddings of the functions in `main.go` -/

/-- `stdIncludesSkipList` (main.go:51). -/
def stdIncludesSkipList : List String :=
  ["algorithm", "array", "barrier", "bit", "bitset", "cassert", "ccomplex",
   "cctype", "cerrno", "cfenv", "cfloat", "chrono", "cinttypes", "ciso646",
   "climits", "clocale", "cmath", "codecvt", "complex", "condition_variable",
   "coroutine", "cstdio", "cstdlib", "cstring", "ctime", "cwchar", "cwctype",
   "deque", "exception", "execution", "filesystem", "format", "forward_list",
   "fstream", "functional", "future", "initializer_list", "iomanip", "ios",
   "iosfwd", "iostream", "istream", "iterator", "latch", "limits", "list",
   "locale", "map", "memory", "mutex", "new", "numbers", "numeric", "optional",
   "ostream", "queue", "random", "ranges", "ratio", "regex", "scoped_allocator",
   "semaphore", "set", "shared_mutex", "source_location", "span", "sstream",
   "stack", "stdexcept", "steambuf", "stop_token", "streambuf", "string",
   "string_view", "strstream", "syncstream", "system_error", "tgmath",
   "thread", "tuple", "type_traits", "typeindex", "typeinfo", "unordered_map",
   "unordered_set", "utility", "valarray", "variant", "vector", "version",
   "atomic"]

/-- `isStdInclude` (main.go:347): strip the extension, lower-case, drop one
leading `c`, and compare against the allow-list. -/
def isStdInclude (header : String) : Bool :=
  let h := goToLower (goTrimSuffix header (goExt header))
  let h := goTrimPfx h "c"
  stdIncludesSkipList.any (fun s => h == s)

/-- `isTestSource` (main.go:232). -/
def isTestSource (s : String) : Bool :=
  let l := goToLower (goBase s)
  goHasSuffix l "_test.cpp" || goHasSuffix l "_test.cc" ||
    goHasSuffix l "_test.cxx" || goHasSuffix l "_test.c" ||
    l == "test.cpp" || l == "test.cc" || l == "test.cxx" || l == "test.c"

/-- `findMainSource` (main.go:245); `contents` models `os.ReadFile`. -/
def findMainSource (contents : String → Option String) (srcs : List String) : String :=
  match srcs.find? (fun s =>
      let l := goToLower (goBase s)
      l == "main.cpp" || l == "main.cc" || l == "main.cxx" || l == "main.c") with
  | some s => s
  | none =>
    let nt := srcs.filter (fun s => !isTestSource s)
    match nt with
    | [single] => single
    | _ =>
      match nt.find? (fun s =>
          match contents s with
          | some b => goContains b " main("
          | none => false) with
      | some s => s
      | none => ""

/-- `guessOutputNameFromMain` (main.go:272); `dirBase` is
`filepath.Base` of the working directory (`os.Getwd`). -/
def guessOutputNameFromMain (dirBase mainSrc : String) (docker : Bool) : String :=
  let b := dirBase
  let b := if b == "src" then
             let b2 := goTrimSuffix (goBase mainSrc) (goExt mainSrc)
             if b2 == "" then "main" else b2
           else b
  if docker && !goHasSuffix b ".exe" then b ++ ".exe" else b

/-- `ensureExeSuffix` (main.go:476), with `runtime.GOOS = linux`. -/
def ensureExeSuffix (base : String) (docker : Bool) : String :=
  if docker && !goHasSuffix base ".exe" then base ++ ".exe" else base

/-- `discoverSystemIncludeDirs` (main.go:400). -/
def discoverSystemIncludeDirs (fs : List (String × Int)) : List String :=
  let d := ["/usr/include", "/usr/local/include"]
  if fileExistsM fs "/usr/include/x86_64-linux-gnu" then
    d ++ ["/usr/include/x86_64-linux-gnu"]
  else d

/-- `discoverLocalIncludeDirs` (main.go:408). -/
def discoverLocalIncludeDirs (fs : List (String × Int)) : List String :=
  let d := ["include", ".", "common"]
  let d := if fileExistsM fs "../include" then d ++ ["../include"] else d
  if fileExistsM fs "../common" then d ++ ["../common"] else d

/-- `checkMissingHeaders` (main.go:358): a header is kept as missing when
it is neither on the standard allow-list nor found under a local include
directory nor under a system include directory. -/
def checkMissingHeaders (fs : List (String × Int)) (includes : List String)
    (incDirs sysDirs : List String) : List String :=
  includes.filter (fun inc =>
    !(isStdInclude inc
      || incDirs.any (fun d => fileExistsM fs (goJoin d inc))
      || sysDirs.any (fun d => fileExistsM fs (goJoin d inc))))

/-- `removeFromSlice` (main.go:539). -/
def removeFromSlice (sl : List String) (val : String) : List String :=
  sl.filter (fun s => s != val)

/-- `compileFlags` (main.go:510). -/
def compileFlags (o : Options) : String :=
  let baseFlags := ["-pipe", "-fPIC", "-fno-plt", "-fstack-protector-strong",
    "-Wall", "-Wshadow", "-Wpedantic", "-Wno-parentheses", "-Wfatal-errors",
    "-Wvla", "-Wignored-qualifiers"]
  let baseFlags := if o.debug then removeFromSlice baseFlags "-O2" ++ ["-O0", "-g"]
                   else if o.opt then baseFlags ++ ["-O2"] else baseFlags
  let baseFlags := if o.strict then baseFlags ++ ["-Wextra", "-Wconversion"] else baseFlags
  let baseFlags := if o.sloppy then baseFlags ++ ["-w", "-fpermissive"] else baseFlags
  strJoin " " baseFlags

/-- `joinExtraCFlags` (main.go:549). -/
def joinExtraCFlags (flags : List String) : String :=
  if flags.isEmpty then "" else strJoin " " flags

/-- `joinExtraLDFlags` (main.go:567). -/
def joinExtraLDFlags (ldflags : List String) : String :=
  if ldflags.isEmpty then "" else strJoin " " ldflags

/-- `buildCompileCmd` (main.go:499). -/
def buildCompileCmd (o : Options) (src obj : String) : String :=
  let flags := compileFlags o
  let sf := if o.std != "" then "-std=" ++ o.std else ""
  let cf := joinExtraCFlags o.extraCFlags
  o.cxx ++ " " ++ sf ++ " " ++ flags ++ " " ++ cf ++ " -c " ++ src ++ " -o " ++ obj

/-- The command line assembled by `linkObjects` (main.go:556). -/
def linkCmd (o : Options) (objs : List String) (out : String) : String :=
  let flags := compileFlags o
  let linkFlags := joinExtraLDFlags o.extraLDFlags
  let line := o.cxx ++ " " ++ flags ++ " " ++ strJoin " " objs ++ " -o " ++ out
  if linkFlags != "" then line ++ " " ++ linkFlags else line

/-- The command line assembled by `singleStepBuild` (main.go:443); note the
`Sprintf` produces a double space where `extraCFlags` is empty — the
tokenizer in `runCommand` (`strings.Fields`) collapses it. -/
def singleStepCmd (o : Options) (source outName : String) : String :=
  let flags := compileFlags o
  let sf := if o.std != "" then "-std=" ++ o.std else ""
  let cf := joinExtraCFlags o.extraCFlags
  let linkFlags := joinExtraLDFlags o.extraLDFlags
  let line := o.cxx ++ " " ++ sf ++ " " ++ flags ++ " " ++ cf ++ " " ++ source ++ " -o " ++ outName
  if linkFlags != "" then line ++ " " ++ linkFlags else line

/-- `needsRebuild` (main.go:574): rebuild when the object does not exist,
the source cannot be statted, the object predates the source, or the
cached timestamp (Go map zero default) differs from the source mtime. -/
def needsRebuild (src obj : String) (fs cache : List (String × Int)) : Bool :=
  match alookup fs obj with
  | none => true
  | some objT =>
    match alookup fs src with
    | none => true
    | some srcT =>
      if objT < srcT then true else !(cacheGet cache src == srcT)

/-- Derived object path of a source (`compileOne`, main.go:487-488): base
name with the extension replaced by `.o`, in the working directory. -/
def objOf (src : String) : String :=
  strCat (goTrimSuffix (goBase src) (goExt src)) ".o"

/-- `compileOne` (main.go:486): consult the cache, invoke the compiler when
stale, and on success record the source's current mtime
(`updateTimestamp`, main.go:591). -/
def compileOne (w : World) (o : Options) (st : BuildState) (src : String) :
    Except Unit String × BuildState :=
  let obj := objOf src
  let st := { st with events := st.events ++ [Event.evalSrc src] }
  if needsRebuild src obj st.fs st.cache then
    let st := { st with events := st.events ++ [Event.compile src obj] }
    if w.runCmdOk (buildCompileCmd o src obj) then
      let st := { st with fs := ainsert obj st.clock st.fs, clock := st.clock + 1 }
      match alookup st.fs src with
      | some t =>
        (Except.ok obj,
         { st with cache := ainsert src t st.cache,
                   events := st.events ++ [Event.cacheUpdate src t] })
      | none => (Except.ok obj, st)
    else (Except.error (), st)
  else (Except.ok obj, st)

/-- The compile loop shared by `compileAndLink` (main.go:458, with
`tm = o.test`) and `buildAndRunTests` (main.go:599, with `tm = false`):
skip test sources unless `tm`, compile the rest in order, fail fast. -/
def compileSources (w : World) (o : Options) (tm : Bool) (srcs : List String)
    (st : BuildState) : Except Unit (List String) × BuildState :=
  match srcs with
  | [] => (Except.ok [], st)
  | s :: rest =>
    if !tm && isTestSource s then compileSources w o tm rest st
    else
      match compileOne w o st s with
      | (Except.ok obj, st') =>
        match compileSources w o tm rest st' with
        | (Except.ok objs, st'') => (Except.ok (obj :: objs), st'')
        | (Except.error e, st'') => (Except.error e, st'')
      | (Except.error e, st') => (Except.error e, st')

/-- `linkObjects` (main.go:556): one linker invocation; the output artifact
is written on success. -/
def linkObjects (w : World) (o : Options) (objs : List String) (out : String)
    (st : BuildState) : Except Unit Unit × BuildState :=
  let st := { st with events := st.events ++ [Event.link objs out] }
  if w.runCmdOk (linkCmd o objs out) then
    (Except.ok (), { st with fs := ainsert out st.clock st.fs, clock := st.clock + 1 })
  else (Except.error (), st)

/-- `compileAndLink` (main.go:456). -/
def compileAndLink (w : World) (o : Options) (st : BuildState) :
    Except Unit Unit × BuildState :=
  match compileSources w o o.test o.sources st with
  | (Except.ok objs, st') =>
    linkObjects w o objs (ensureExeSuffix o.outputName o.win64Docker) st'
  | (Except.error e, st') => (Except.error e, st')

/-- `singleStepBuild` (main.go:434): one compile-and-link invocation, no
cache interaction. -/
def singleStepBuild (w : World) (o : Options) (source : String) (st : BuildState) :
    Except Unit Unit × BuildState :=
  let outName := ensureExeSuffix o.outputName o.win64Docker
  let line := singleStepCmd o source outName
  let st := { st with events := st.events ++ [Event.cmd line] }
  if w.runCmdOk line then
    (Except.ok (), { st with fs := ainsert outName st.clock st.fs, clock := st.clock + 1 })
  else (Except.error (), st)

/-- The per-test tail of `buildAndRunTests` (main.go:608-628): compile the
test source, link it with all normal objects into its own executable, run
it, and stop at the first failure. -/
def runTestsLoop (w : World) (o : Options) (normalObjs : List String)
    (tests : List String) (st : BuildState) : Except Unit Unit × BuildState :=
  match tests with
  | [] => (Except.ok (), st)
  | s :: rest =>
    match compileOne w o st s with
    | (Except.error e, st') => (Except.error e, st')
    | (Except.ok obj, st') =>
      let exe := ensureExeSuffix (goTrimSuffix obj ".o") o.win64Docker
      match linkObjects w o (obj :: normalObjs) exe st' with
      | (Except.error e, st'') => (Except.error e, st'')
      | (Except.ok _, st'') =>
        if o.win64Docker then runTestsLoop w o normalObjs rest st''
        else
          let st3 := { st'' with events := st''.events ++ [Event.runExe exe] }
          if w.runExeOk exe then runTestsLoop w o normalObjs rest st3
          else (Except.error (), st3)

/-- `buildAndRunTests` (main.go:597). -/
def buildAndRunTests (w : World) (o : Options) (st : BuildState) :
    Except Unit Unit × BuildState :=
  match compileSources w o false o.sources st with
  | (Except.error e, st') => (Except.error e, st')
  | (Except.ok normalObjs, st') => runTestsLoop w o normalObjs o.testSources st'

/-- `mapHeaderToPkg` (main.go:753). -/
def mapHeaderToPkg (h distro : String) : String × String :=
  let l := goToLower h
  let ar := goContains (goToLower distro) "arch"
  if goContains l "boost/" then
    if ar then ("boost", "pacman -S boost")
    else ("libboost-all-dev", "apt install libboost-all-dev")
  else if goContains l "sdl2/" then
    if ar then ("sdl2", "pacman -S sdl2 sdl2_mixer")
    else ("libsdl2-dev libsdl2-mixer-dev", "apt install libsdl2-dev libsdl2-mixer-dev")
  else if goContains l "glm/" then
    if ar then ("glm", "pacman -S glm")
    else ("libglm-dev", "apt install libglm-dev")
  else if goContains l "gl.h" || goContains l "glu.h" then
    if ar then ("mesa", "pacman -S mesa")
    else ("mesa-common-dev", "apt install mesa-common-dev")
  else if goContains l "gtk/gtk.h" then
    if ar then ("gtk3", "pacman -S gtk3")
    else ("libgtk-3-dev", "apt install libgtk-3-dev")
  else if goContains l "vulkan/" then
    if ar then ("vulkan-devel", "pacman -S vulkan-devel")
    else ("libvulkan-dev", "apt install libvulkan-dev")
  else ("", "")

/-- `mergePkgConfigFlags` (main.go:740): classify each `pkg-config` token
into compile flags or link flags; unrecognized tokens are dropped. -/
def mergePkgConfigFlags (flags : String) (o : Options) : Options :=
  (goFields flags).foldl (fun o f =>
    if strStarts f "-I" || strStarts f "-D" || strStarts f "-F"
        || strStarts f "-framework" || (strStarts f "-W" && !strStarts f "-Wl,") then
      { o with extraCFlags := o.extraCFlags ++ [f] }
    else if strStarts f "-l" || strStarts f "-L" || strStarts f "-Wl,"
        || strStarts f "-framework" then
      { o with extraLDFlags := o.extraLDFlags ++ [f] }
    else o) o

/-- `pkgDiscovery` (main.go:380): report every missing header (in order),
gather flags for hinted packages via `pkg-config`, then abort unless
sloppy mode allows proceeding.  Returns the updated options, the reported
header list, and whether the run proceeds. -/
def pkgDiscovery (w : World) (o : Options) (missing : List String) :
    Options × List String × Bool :=
  let step := fun (p : Options × List String) (h : String) =>
    let (pkg, cmd) := mapHeaderToPkg h p.1.detectedDistro
    let o' := if pkg != "" && cmd != "" then
                match w.pkgConfig pkg with
                | some flags => if flags != "" then mergePkgConfigFlags flags p.1 else p.1
                | none => p.1
              else p.1
    (o', p.2 ++ [h])
  let r := missing.foldl step (o, [])
  (r.1, r.2, r.1.sloppy)

/-- The strategy test at main.go:136: exactly one normal source, no test
sources, test mode not requested. -/
def strategyA (normalSources testSources : List String) (testMode : Bool) : Bool :=
  normalSources.length == 1 && testSources.length == 0 && !testMode

/-- Result of one modelled run of `main`'s build portion. -/
inductive BuildOutcome where
  | noSources
  | missingHeadersFatal (reported : List String)
  | buildFailed
  | testFailed
  | done
deriving DecidableEq, Repr

/-- Strategy B as sequenced by `main` (main.go:140-151): `compileAndLink`,
persist the cache, then build and run tests when requested. -/
def strategyBRun (w : World) (o : Options) (st : BuildState) :
    BuildOutcome × BuildState :=
  match compileAndLink w o st with
  | (Except.error _, st') => (BuildOutcome.buildFailed, st')
  | (Except.ok _, st') =>
    let st'' := { st' with cacheSaved := true }
    if o.test && !o.testSources.isEmpty then
      match buildAndRunTests w o st'' with
      | (Except.error _, st3) => (BuildOutcome.testFailed, st3)
      | (Except.ok _, st3) => (BuildOutcome.done, st3)
    else (BuildOutcome.done, st'')

/-- The strategy dispatch of `main` (main.go:135-151). -/
def buildPhase (w : World) (o : Options) (normalSources : List String)
    (st : BuildState) : BuildOutcome × BuildState :=
  if strategyA normalSources o.testSources o.test then
    match normalSources with
    | s :: _ =>
      match singleStepBuild w o s st with
      | (Except.ok _, st') => (BuildOutcome.done, st')
      | (Except.error _, st') => (BuildOutcome.buildFailed, st')
    | [] => (BuildOutcome.buildFailed, st)
  else strategyBRun w o st

/-- The modelled core of `main` (main.go:79-151): classify the discovered
sources, derive the output name, discover include directories, resolve
headers, abort on missing headers outside sloppy mode, then dispatch on
the build strategy.  `srcs` is the directory-walk result, `incls` the
aggregated include set, `dirBase` the working directory's base name; the
loaded cache is `st.cache`. -/
def mainRun (w : World) (o : Options) (srcs incls : List String)
    (dirBase : String) (st : BuildState) : BuildOutcome × BuildState :=
  if srcs.isEmpty then (BuildOutcome.noSources, st) else
  let testSrcs := srcs.filter (fun s => isTestSource s)
  let normalSources := srcs.filter (fun s => !isTestSource s)
  let mainSrc := findMainSource w.contents srcs
  let outName := if mainSrc != "" then guessOutputNameFromMain dirBase mainSrc o.win64Docker
                 else if normalSources.length > 0 then
                   (if o.win64Docker then "main.exe" else "main")
                 else o.outputName
  let o := { o with sources := srcs, testSources := testSrcs, mainSource := mainSrc,
                    outputName := outName,
                    systemIncludeDirs := discoverSystemIncludeDirs st.fs,
                    includeDirs := discoverLocalIncludeDirs st.fs }
  let missing := checkMissingHeaders st.fs incls o.includeDirs o.systemIncludeDirs
  if !missing.isEmpty then
    let r := pkgDiscovery w o missing
    if !r.2.2 then (BuildOutcome.missingHeadersFatal r.2.1, st)
    else buildPhase w r.1 normalSources st
  else buildPhase w o normalSources st

/-! ## Spec-side definition for the header-resolution refinement claim -/

/-- Modelled from the spec (§4.4): a header is satisfied when its name —
stripped of extension, case-folded, one leading `c` removed — is on the
standard allow-list, or a file with its exact relative name exists under a
local include directory (checked first) or a system include directory. -/
def specHeaderSatisfied (fs : List (String × Int)) (incDirs sysDirs : List String)
    (h : String) : Bool :=
  stdIncludesSkipList.any (fun s => goTrimPfx (goToLower (goTrimSuffix h (goExt h))) "c" == s)
  || incDirs.any (fun d => fileExistsM fs (goJoin d h))
  || sysDirs.any (fun d => fileExistsM fs (goJoin d h))

/-! ## Classification (spec §4.1 view of main.go:88-98) -/

/-- The three source kinds of the spec's data model. -/
inductive SourceKind where
  | entry
  | testSrc
  | normal
deriving DecidableEq

/-- Classification as `main` performs it: the test split (main.go:90-94)
is by `isTestSource`, the entry point (main.go:98) is `findMainSource`,
everything else is normal. -/
def classifySource (contents : String → Option String) (srcs : List String)
    (s : String) : SourceKind :=
  if isTestSource s then SourceKind.testSrc
  else if s == findMainSource contents srcs then SourceKind.entry
  else SourceKind.normal

/-! ## Shared concrete scenario material -/

/-- All external invocations succeed; no `pkg-config`, no readable files. -/
def allOkWorld : World :=
  ⟨fun _ => true, fun _ => true, fun _ => none, fun _ => none⟩

/-- The options produced by `parseArgs` with no arguments (main.go:170). -/
def defaultOpts : Options :=
  ⟨"g++", "c++20", false, false, false, false, false, false, "debian",
   "", "", [], [], [], [], [], []⟩

/-- Default options with test mode requested. -/
def testOpts : Options := { defaultOpts with test := true }

/-- Scenario A state: one source `main.cpp`, empty cache. -/
def stScenA : BuildState := ⟨[("main.cpp", 5)], [], 10, [], false⟩

/-- Scenario B state: `main.cpp`, `util.cpp`, `util_test.cpp`, empty cache. -/
def stScenB : BuildState :=
  ⟨[("main.cpp", 5), ("util.cpp", 5), ("util_test.cpp", 5)], [], 10, [], false⟩

/-- Scenario B sources in directory-walk (lexicographic) order. -/
def scenBSrcs : List String := ["main.cpp", "util.cpp", "util_test.cpp"]

/-- Scenario B extended with a second test source, and a world in which
the `util_test` executable exits nonzero. -/
def stScenB2 : BuildState :=
  ⟨[("main.cpp", 5), ("util.cpp", 5), ("util_test.cpp", 5), ("zeta_test.cpp", 5)],
   [], 10, [], false⟩

/-- Like `allOkWorld` but the produced `util_test` binary fails. -/
def utilTestFailsWorld : World :=
  ⟨fun _ => true, fun e => e != "util_test", fun _ => none, fun _ => none⟩

/-! ## Claim theorems -/

/-- **C2.** `needsRebuild src obj cache` returns true if and only if the
object file does not exist, or the object's modification time precedes the
source's, or the cached timestamp recorded for the source (Go map zero
default) differs from the source's current modification time — given that
the source itself is statable. -/
theorem claim2 : ∀ (src obj : String) (fs cache : List (String × Int)) (srcT : Int),
    alookup fs src = some srcT →
    (needsRebuild src obj fs cache = true ↔
      alookup fs obj = none
        ∨ (∃ objT, alookup fs obj = some objT ∧ objT < srcT)
        ∨ cacheGet cache src ≠ srcT) := by
  intro src obj fs cache srcT hs
  unfold needsRebuild
  cases hobj : alookup fs obj with
  | none => simp
  | some objT =>
    rw [hs]
    by_cases hlt : objT < srcT
    · simp only [if_pos hlt, true_iff]
      exact Or.inr (Or.inl ⟨objT, rfl, hlt⟩)
    · simp only [if_neg hlt, Bool.not_eq_true', beq_eq_false_iff_ne, ne_eq]
      constructor
      · intro hc
        exact Or.inr (Or.inr hc)
      · intro hc
        rcases hc with hc | ⟨t, ht, hlt'⟩ | hc
        · cases hc
        · cases ht
          exact absurd hlt' hlt
        · exact hc

/-- Witness for C2 at a concrete stale source: the cache holds 3 but the
source mtime is 5, so a rebuild is required. -/
theorem claim2_witness :
    needsRebuild "a.cpp" "a.o" [("a.cpp", 5), ("a.o", 9)] [("a.cpp", 3)] = true ↔
      alookup [("a.cpp", 5), ("a.o", 9)] "a.o" = none
        ∨ (∃ objT, alookup [("a.cpp", 5), ("a.o", 9)] "a.o" = some objT ∧ objT < 5)
        ∨ cacheGet [("a.cpp", 3)] "a.cpp" ≠ 5 :=
  claim2 "a.cpp" "a.o" [("a.cpp", 5), ("a.o", 9)] [("a.cpp", 3)] 5 (by decide)

/-- **C3.** Scenario B: with `util.cpp`, `util_test.cpp`, `main.cpp` and
test mode requested, the run compiles the normal sources to `util.o` and
`main.o` and links them (together with the test object, per Strategy B in
test mode) into `main`; `util_test.cpp` is compiled and linked together
with the normal objects into its own executable `util_test`, which is then
executed.  With a second test source whose predecessor `util_test` exits
nonzero, the remaining test (`zeta_test`) is neither linked nor run
(fail-fast). -/
theorem claim3 :
    (mainRun allOkWorld testOpts scenBSrcs [] "src" stScenB).1 = BuildOutcome.done
    ∧ (mainRun allOkWorld testOpts scenBSrcs [] "src" stScenB).2.events =
        [Event.evalSrc "main.cpp", Event.compile "main.cpp" "main.o",
         Event.cacheUpdate "main.cpp" 5,
         Event.evalSrc "util.cpp", Event.compile "util.cpp" "util.o",
         Event.cacheUpdate "util.cpp" 5,
         Event.evalSrc "util_test.cpp", Event.compile "util_test.cpp" "util_test.o",
         Event.cacheUpdate "util_test.cpp" 5,
         Event.link ["main.o", "util.o", "util_test.o"] "main",
         Event.evalSrc "main.cpp", Event.evalSrc "util.cpp",
         Event.evalSrc "util_test.cpp",
         Event.link ["util_test.o", "main.o", "util.o"] "util_test",
         Event.runExe "util_test"]
    ∧ (mainRun utilTestFailsWorld testOpts
        ["main.cpp", "util.cpp", "util_test.cpp", "zeta_test.cpp"] [] "src" stScenB2).1
        = BuildOutcome.testFailed
    ∧ Event.runExe "util_test" ∈ (mainRun utilTestFailsWorld testOpts
        ["main.cpp", "util.cpp", "util_test.cpp", "zeta_test.cpp"] [] "src" stScenB2).2.events
    ∧ Event.runExe "zeta_test" ∉ (mainRun utilTestFailsWorld testOpts
        ["main.cpp", "util.cpp", "util_test.cpp", "zeta_test.cpp"] [] "src" stScenB2).2.events
    ∧ Event.link ["zeta_test.o", "main.o", "util.o"] "zeta_test" ∉
        (mainRun utilTestFailsWorld testOpts
          ["main.cpp", "util.cpp", "util_test.cpp", "zeta_test.cpp"] [] "src" stScenB2).2.events := by
  refine ⟨rfl, rfl, rfl, by decide, by decide, by decide⟩

/-- **C1.** Strategy A (single-step `singleStepBuild`) is chosen exactly
when there is one normal source, zero test sources and test mode is not
requested (main.go:136); and in that branch the staleness cache is
neither consulted nor updated nor persisted: `singleStepBuild` leaves the
cache and the saved-flag untouched and issues exactly one combined
compile-and-link command. -/
theorem claim1 :
    (∀ (n t : List String) (tm : Bool),
      strategyA n t tm = true ↔ (n.length = 1 ∧ t.length = 0 ∧ tm = false))
    ∧ (∀ (w : World) (o : Options) (s : String) (st : BuildState)
        (r : Except Unit Unit) (st' : BuildState),
        singleStepBuild w o s st = (r, st') →
        st'.cache = st.cache ∧ st'.cacheSaved = st.cacheSaved ∧
          ∃ line, st'.events = st.events ++ [Event.cmd line]) := by
  constructor
  · intro n t tm
    simp [strategyA, and_assoc]
  · intro w o s st r st' h
    simp only [singleStepBuild] at h
    split at h
    · cases h
      exact ⟨rfl, rfl, _, rfl⟩
    · cases h
      exact ⟨rfl, rfl, _, rfl⟩

/-- Witness for C1: the hypothesis-bearing part applied to the Scenario A
single-step build. -/
theorem claim1_witness :
    (singleStepBuild allOkWorld defaultOpts "main.cpp" stScenA).2.cache = stScenA.cache
    ∧ (singleStepBuild allOkWorld defaultOpts "main.cpp" stScenA).2.cacheSaved
        = stScenA.cacheSaved
    ∧ ∃ line, (singleStepBuild allOkWorld defaultOpts "main.cpp" stScenA).2.events
        = stScenA.events ++ [Event.cmd line] :=
  claim1.2 allOkWorld defaultOpts "main.cpp" stScenA
    (singleStepBuild allOkWorld defaultOpts "main.cpp" stScenA).1
    (singleStepBuild allOkWorld defaultOpts "main.cpp" stScenA).2 rfl

/-- Helper for C10: `goExtAux` never looks past the first slash. -/
theorem goExtAux_takeWhile : ∀ (l acc : List Char),
    goExtAux l acc = goExtAux (l.takeWhile (fun c => c != '/')) acc := by
  intro l
  induction l with
  | nil => intro acc; rfl
  | cons c t ih =>
    intro acc
    by_cases hc : (c == '/') = true
    · have : (c != '/') = false := by simp [bne, hc]
      rw [List.takeWhile_cons, this]
      simp only [goExtAux, if_pos hc]
    · have hne : (c != '/') = true := by simp [bne, hc]
      rw [List.takeWhile_cons, hne]
      simp only [goExtAux, if_neg hc]
      by_cases hd : (c == '.') = true
      · simp only [if_pos hd]
      · simp only [if_neg hd]
        exact ih (c :: acc)

/-- Helper for C10: for a nonempty path without a trailing slash, the
extension only depends on the base name. -/
theorem goExt_goBase : ∀ (s : String), s ≠ "" → lastIsSlash s = false →
    goExt s = goExt (goBase s) := by
  intro s hne hsl
  have hdata : s.data ≠ [] := by
    intro h
    apply hne
    cases s with
    | mk d => cases h; rfl
  have hrev : s.data.reverse ≠ [] := by simpa using hdata
  cases hr : s.data.reverse with
  | nil => exact absurd hr hrev
  | cons c rest =>
    have hc : (c == '/') = false := by
      unfold lastIsSlash at hsl
      rw [hr] at hsl
      exact hsl
    have hbase : goBase s = String.mk (((c :: rest).takeWhile (fun x => x != '/')).reverse) := by
      unfold goBase
      rw [if_neg (by simpa using hdata), hr, List.dropWhile_cons, hc]
      simp
    have hcne : (c != '/') = true := by simp [bne, hc]
    rw [goExt, hbase, hr]
    show goExtAux (c :: rest) [] =
      goExtAux (((c :: rest).takeWhile (fun x => x != '/')).reverse).reverse []
    rw [List.reverse_reverse]
    exact goExtAux_takeWhile (c :: rest) []

/-- **C10.** The derived object path only depends on the source's base
file name: for any two walk paths (nonempty, no trailing slash) with the
same base name the object paths coincide; concretely `a/util.cpp` and
`b/util.cpp` both map to `util.o`, and compiling both in one multi-step
run makes the second compilation overwrite the first object (the final
`util.o` carries the second write's mtime). -/
theorem claim10 :
    (∀ (s1 s2 : String), s1 ≠ "" → s2 ≠ "" →
      lastIsSlash s1 = false → lastIsSlash s2 = false →
      goBase s1 = goBase s2 → objOf s1 = objOf s2)
    ∧ objOf "a/util.cpp" = "util.o" ∧ objOf "b/util.cpp" = "util.o"
    ∧ (let r := compileSources allOkWorld testOpts true ["a/util.cpp", "b/util.cpp"]
          ⟨[("a/util.cpp", 5), ("b/util.cpp", 5)], [], 6, [], false⟩
       Event.compile "a/util.cpp" "util.o" ∈ r.2.events
        ∧ Event.compile "b/util.cpp" "util.o" ∈ r.2.events
        ∧ alookup r.2.fs "util.o" = some 7) := by
  refine ⟨?_, rfl, rfl, by decide, by decide, by decide⟩
  intro s1 s2 h1 h2 hs1 hs2 hb
  unfold objOf
  rw [goExt_goBase s1 h1 hs1, goExt_goBase s2 h2 hs2, hb]

/-- Witness for C10: the object path of `a/util.cpp` equals that of
`b/util.cpp` by the general base-name property. -/
theorem claim10_witness : objOf "a/util.cpp" = objOf "b/util.cpp" :=
  claim10.1 "a/util.cpp" "b/util.cpp" (by decide) (by decide) (by decide) (by decide)
    (by decide)

/-- **C9 (counterexample).** In a working directory whose base name is
`myproj`, the Scenario A single-step command ends in `-o myproj`, not
`-o main`: the output artifact is named after the working directory, not
after the entry point's base file name. -/
theorem claim9_counterexample :
    (mainRun allOkWorld defaultOpts ["main.cpp"] ["iostream"] "myproj" stScenA).2.events
      = [Event.cmd "g++ -std=c++20 -pipe -fPIC -fno-plt -fstack-protector-strong -Wall -Wshadow -Wpedantic -Wno-parentheses -Wfatal-errors -Wvla -Wignored-qualifiers  main.cpp -o myproj"]
    ∧ guessOutputNameFromMain "myproj" "main.cpp" false ≠ "main" := by
  exact ⟨rfl, by decide⟩

/-- **C9 (amended).** For a directory with the single entry-point source
`main.cpp`, Strategy A is selected and the one assembled command tokenizes
to `<toolchain> -std=<std> <flags> main.cpp -o <out>`, where `<out>` is
the working directory's base name in general and the entry point's base
name `main` when the directory is named `src`. -/
theorem claim9_amended :
    strategyA ["main.cpp"] [] false = true
    ∧ (∀ dirBase : String, guessOutputNameFromMain dirBase "main.cpp" false
        = if dirBase == "src" then "main" else dirBase)
    ∧ (mainRun allOkWorld defaultOpts ["main.cpp"] ["iostream"] "src" stScenA).1
        = BuildOutcome.done
    ∧ (mainRun allOkWorld defaultOpts ["main.cpp"] ["iostream"] "src" stScenA).2.events
        = [Event.cmd "g++ -std=c++20 -pipe -fPIC -fno-plt -fstack-protector-strong -Wall -Wshadow -Wpedantic -Wno-parentheses -Wfatal-errors -Wvla -Wignored-qualifiers  main.cpp -o main"]
    ∧ goFields "g++ -std=c++20 -pipe -fPIC -fno-plt -fstack-protector-strong -Wall -Wshadow -Wpedantic -Wno-parentheses -Wfatal-errors -Wvla -Wignored-qualifiers  main.cpp -o main"
        = ["g++", "-std=c++20", "-pipe", "-fPIC", "-fno-plt",
           "-fstack-protector-strong", "-Wall", "-Wshadow", "-Wpedantic",
           "-Wno-parentheses", "-Wfatal-errors", "-Wvla", "-Wignored-qualifiers",
           "main.cpp", "-o", "main"]
    ∧ goFields "g++ -std=c++20 -pipe -fPIC -fno-plt -fstack-protector-strong -Wall -Wshadow -Wpedantic -Wno-parentheses -Wfatal-errors -Wvla -Wignored-qualifiers  main.cpp -o myproj"
        = ["g++", "-std=c++20", "-pipe", "-fPIC", "-fno-plt",
           "-fstack-protector-strong", "-Wall", "-Wshadow", "-Wpedantic",
           "-Wno-parentheses", "-Wfatal-errors", "-Wvla", "-Wignored-qualifiers",
           "main.cpp", "-o", "myproj"] := by
  refine ⟨rfl, ?_, rfl, rfl, rfl, rfl⟩
  intro dirBase
  by_cases h : (dirBase == "src") = true
  · simp only [guessOutputNameFromMain, h, if_true]
    rfl
  · have h' : (dirBase == "src") = false := by
      revert h
      cases dirBase == "src" <;> simp
    simp only [guessOutputNameFromMain, h', if_false]
    rfl

/-- **C5.** Header resolution: a header is reported missing exactly when
it was gathered and is not satisfied in the spec's sense (allow-list after
extension-stripping, case-folding and one leading `c` removed; else exact
relative name under a local include directory — checked first — else
under a system include directory); consequently every gathered header
ends in exactly one of satisfied or missing. -/
theorem claim5 : ∀ (fs : List (String × Int)) (incDirs sysDirs includes : List String)
    (h : String),
    (h ∈ checkMissingHeaders fs includes incDirs sysDirs ↔
      h ∈ includes ∧ specHeaderSatisfied fs incDirs sysDirs h = false)
    ∧ (∀ h' ∈ includes,
        (specHeaderSatisfied fs incDirs sysDirs h' = true
          ∧ h' ∉ checkMissingHeaders fs includes incDirs sysDirs)
        ∨ (specHeaderSatisfied fs incDirs sysDirs h' = false
          ∧ h' ∈ checkMissingHeaders fs includes incDirs sysDirs)) := by
  intro fs incDirs sysDirs includes h
  have hpred : ∀ x : String,
      (!(isStdInclude x
        || incDirs.any (fun d => fileExistsM fs (goJoin d x))
        || sysDirs.any (fun d => fileExistsM fs (goJoin d x))))
      = !(specHeaderSatisfied fs incDirs sysDirs x) := by
    intro x
    rfl
  constructor
  · rw [checkMissingHeaders, List.mem_filter]
    rw [hpred h]
    rw [Bool.not_eq_true']
  · intro h' hmem
    cases hsat : specHeaderSatisfied fs incDirs sysDirs h' with
    | true =>
      left
      refine ⟨rfl, ?_⟩
      rw [checkMissingHeaders, List.mem_filter, hpred h', hsat]
      simp
    | false =>
      right
      refine ⟨rfl, ?_⟩
      rw [checkMissingHeaders, List.mem_filter, hpred h', hsat]
      exact ⟨hmem, rfl⟩

/-- Witness for C5: `include/foo.h` exists, `bar.h` is nowhere, so `foo.h`
is satisfied-local and `bar.h` is missing. -/
theorem claim5_witness :
    ("bar.h" ∈ checkMissingHeaders [("include/foo.h", 1)] ["foo.h", "bar.h"]
        ["include", ".", "common"] ["/usr/include", "/usr/local/include"] ↔
      "bar.h" ∈ ["foo.h", "bar.h"]
        ∧ specHeaderSatisfied [("include/foo.h", 1)] ["include", ".", "common"]
            ["/usr/include", "/usr/local/include"] "bar.h" = false)
    ∧ (∀ h' ∈ ["foo.h", "bar.h"],
        (specHeaderSatisfied [("include/foo.h", 1)] ["include", ".", "common"]
            ["/usr/include", "/usr/local/include"] h' = true
          ∧ h' ∉ checkMissingHeaders [("include/foo.h", 1)] ["foo.h", "bar.h"]
              ["include", ".", "common"] ["/usr/include", "/usr/local/include"])
        ∨ (specHeaderSatisfied [("include/foo.h", 1)] ["include", ".", "common"]
            ["/usr/include", "/usr/local/include"] h' = false
          ∧ h' ∈ checkMissingHeaders [("include/foo.h", 1)] ["foo.h", "bar.h"]
              ["include", ".", "common"] ["/usr/include", "/usr/local/include"])) :=
  claim5 [("include/foo.h", 1)] ["include", ".", "common"]
    ["/usr/include", "/usr/local/include"] ["foo.h", "bar.h"] "bar.h"

/-- Unfolding equation for `isTestSource`. -/
theorem isTestSource_eq (s : String) : isTestSource s =
    (goHasSuffix (goToLower (goBase s)) "_test.cpp"
      || goHasSuffix (goToLower (goBase s)) "_test.cc"
      || goHasSuffix (goToLower (goBase s)) "_test.cxx"
      || goHasSuffix (goToLower (goBase s)) "_test.c"
      || goToLower (goBase s) == "test.cpp" || goToLower (goBase s) == "test.cc"
      || goToLower (goBase s) == "test.cxx" || goToLower (goBase s) == "test.c") := rfl

theorem mainName_not_test : ∀ s : String,
    (goToLower (goBase s) == "main.cpp" || goToLower (goBase s) == "main.cc"
      || goToLower (goBase s) == "main.cxx" || goToLower (goBase s) == "main.c") = true →
    isTestSource s = false := by
  intro s h
  rw [isTestSource_eq]
  simp only [Bool.or_eq_true, beq_iff_eq] at h
  rcases h with ((h | h) | h) | h <;> rw [h] <;> decide

/-- `findMainSource` returns the empty string or a non-test member of the
source list. -/
theorem fms_spec : ∀ (contents : String → Option String) (srcs : List String),
    findMainSource contents srcs = ""
      ∨ (findMainSource contents srcs ∈ srcs
          ∧ isTestSource (findMainSource contents srcs) = false) := by
  intro c srcs
  unfold findMainSource
  cases hf : srcs.find? (fun s =>
      let l := goToLower (goBase s)
      l == "main.cpp" || l == "main.cc" || l == "main.cxx" || l == "main.c") with
  | some s =>
    right
    refine ⟨List.mem_of_find?_eq_some hf, ?_⟩
    have hp := List.find?_some hf
    exact mainName_not_test s hp
  | none =>
    cases hnt : srcs.filter (fun s => !isTestSource s) with
    | nil =>
      dsimp only
      left
      rfl
    | cons a t =>
      cases t with
      | nil =>
        dsimp only
        right
        have ha : a ∈ srcs.filter (fun s => !isTestSource s) := by
          rw [hnt]
          exact List.mem_cons_self a []
        refine ⟨List.mem_of_mem_filter ha, ?_⟩
        have := List.of_mem_filter ha
        simpa using this
      | cons b t' =>
        dsimp only
        cases hf2 : (a :: b :: t').find? (fun s =>
            match c s with
            | some bb => goContains bb " main("
            | none => false) with
        | some s2 =>
          right
          have hmem2 := List.mem_of_find?_eq_some hf2
          rw [← hnt] at hmem2
          refine ⟨List.mem_of_mem_filter hmem2, ?_⟩
          have := List.of_mem_filter hmem2
          simpa using this
        | none =>
          left
          rfl

/-- A source classified as the entry point is the `findMainSource`
result. -/
theorem classify_entry_imp : ∀ (c : String → Option String) (srcs : List String)
    (s : String), classifySource c srcs s = SourceKind.entry →
    s = findMainSource c srcs := by
  intro c srcs s h
  unfold classifySource at h
  split at h
  · cases h
  · split at h
    · next he => exact eq_of_beq he
    · cases h

/-- A `Nodup` list has at most one element satisfying a predicate that
pins its argument to one fixed value. -/
theorem nodup_filter_le_one : ∀ (l : List String) (P : String → Bool) (c : String),
    (∀ s, P s = true → s = c) → l.Nodup → (l.filter P).length ≤ 1 := by
  intro l P c hP
  induction l with
  | nil =>
    intro _
    simp
  | cons a t ih =>
    intro hnd
    rw [List.nodup_cons] at hnd
    rw [List.filter_cons]
    by_cases hPa : P a = true
    · rw [if_pos hPa]
      have hnil : t.filter P = [] := by
        rw [List.filter_eq_nil_iff]
        intro s hs hPs
        exact hnd.1 ((hP s hPs).trans (hP a hPa).symm ▸ hs)
      rw [hnil]
      simp
    · rw [if_neg (by simpa using hPa)]
      exact ih hnd.2

/-- Every `SourceKind` is exactly one of the three kinds. -/
theorem kind_sum : ∀ k : SourceKind,
    (decide (k = SourceKind.entry)).toNat + (decide (k = SourceKind.testSrc)).toNat
      + (decide (k = SourceKind.normal)).toNat = 1 := by
  intro k
  cases k <;> rfl

/-- **C8.** Classification is a partition: every source receives exactly
one kind among entry point, test and normal; for a duplicate-free source
list at most one source is classified as the entry point; and the chosen
entry point (when any) is a non-test member of the list. -/
theorem claim8 : ∀ (contents : String → Option String) (srcs : List String),
    srcs.Nodup →
    (∀ s : String,
      (decide (classifySource contents srcs s = SourceKind.entry)).toNat
        + (decide (classifySource contents srcs s = SourceKind.testSrc)).toNat
        + (decide (classifySource contents srcs s = SourceKind.normal)).toNat = 1)
    ∧ (srcs.filter
        (fun s => decide (classifySource contents srcs s = SourceKind.entry))).length ≤ 1
    ∧ (findMainSource contents srcs = ""
        ∨ (findMainSource contents srcs ∈ srcs
            ∧ isTestSource (findMainSource contents srcs) = false)) := by
  intro c srcs hnd
  refine ⟨fun s => kind_sum _, ?_, fms_spec c srcs⟩
  refine nodup_filter_le_one srcs _ (findMainSource c srcs) ?_ hnd
  intro s hs
  exact classify_entry_imp c srcs s (of_decide_eq_true hs)

/-- Witness for C8 on the Scenario B source list. -/
theorem claim8_witness :
    ((decide (classifySource allOkWorld.contents scenBSrcs "main.cpp" = SourceKind.entry)).toNat
      + (decide (classifySource allOkWorld.contents scenBSrcs "main.cpp" = SourceKind.testSrc)).toNat
      + (decide (classifySource allOkWorld.contents scenBSrcs "main.cpp" = SourceKind.normal)).toNat = 1)
    ∧ (scenBSrcs.filter
        (fun s => decide (classifySource allOkWorld.contents scenBSrcs s = SourceKind.entry))).length ≤ 1
    ∧ (findMainSource allOkWorld.contents scenBSrcs = ""
        ∨ (findMainSource allOkWorld.contents scenBSrcs ∈ scenBSrcs
            ∧ isTestSource (findMainSource allOkWorld.contents scenBSrcs) = false)) :=
  ⟨(claim8 allOkWorld.contents scenBSrcs (by decide)).1 "main.cpp",
   (claim8 allOkWorld.contents scenBSrcs (by decide)).2.1,
   (claim8 allOkWorld.contents scenBSrcs (by decide)).2.2⟩

/-- `mergePkgConfigFlags` only appends to the flag lists; every other
option field (in particular `sloppy`) is unchanged. -/
theorem mergePkgConfigFlags_sloppy : ∀ (flags : String) (o : Options),
    (mergePkgConfigFlags flags o).sloppy = o.sloppy := by
  intro flags o
  unfold mergePkgConfigFlags
  generalize goFields flags = l
  induction l generalizing o with
  | nil => rfl
  | cons f t ih =>
    rw [List.foldl_cons]
    rw [ih]
    split
    · rfl
    · split
      · rfl
      · rfl

/-- The `pkgDiscovery` fold reports exactly the missing list, in order. -/
theorem pkgDiscovery_reported : ∀ (w : World) (o : Options) (missing : List String),
    (pkgDiscovery w o missing).2.1 = missing := by
  intro w o missing
  unfold pkgDiscovery
  have gen : ∀ (l : List String) (o' : Options) (acc : List String),
      (l.foldl (fun (p : Options × List String) (h : String) =>
        let pc := mapHeaderToPkg h p.1.detectedDistro
        let o'' := if pc.1 != "" && pc.2 != "" then
                     match w.pkgConfig pc.1 with
                     | some flags => if flags != "" then mergePkgConfigFlags flags p.1 else p.1
                     | none => p.1
                   else p.1
        (o'', p.2 ++ [h])) (o', acc)).2 = acc ++ l := by
    intro l
    induction l with
    | nil =>
      intro o' acc
      simp
    | cons h t ih =>
      intro o' acc
      rw [List.foldl_cons]
      rw [ih]
      simp
  exact gen missing o []

/-- `pkgDiscovery` proceeds exactly in sloppy mode: the flag merging never
touches the `sloppy` option. -/
theorem pkgDiscovery_proceed : ∀ (w : World) (o : Options) (missing : List String),
    (pkgDiscovery w o missing).2.2 = o.sloppy := by
  intro w o missing
  unfold pkgDiscovery
  have gen : ∀ (l : List String) (o' : Options) (acc : List String),
      (l.foldl (fun (p : Options × List String) (h : String) =>
        let pc := mapHeaderToPkg h p.1.detectedDistro
        let o'' := if pc.1 != "" && pc.2 != "" then
                     match w.pkgConfig pc.1 with
                     | some flags => if flags != "" then mergePkgConfigFlags flags p.1 else p.1
                     | none => p.1
                   else p.1
        (o'', p.2 ++ [h])) (o', acc)).1.sloppy = o'.sloppy := by
    intro l
    induction l with
    | nil =>
      intro o' acc
      rfl
    | cons h t ih =>
      intro o' acc
      rw [List.foldl_cons]
      rw [ih]
      dsimp only
      split
      · split
        · split
          · rw [mergePkgConfigFlags_sloppy]
          · rfl
        · rfl
      · rfl
  exact gen missing o []

/-- Whatever happens in the build phase, the outcome is never the
missing-headers abort. -/
theorem buildPhase_ne_missing : ∀ (w : World) (o : Options)
    (normalSources : List String) (st : BuildState) (r : List String),
    (buildPhase w o normalSources st).1 ≠ BuildOutcome.missingHeadersFatal r := by
  intro w o ns st r
  unfold buildPhase strategyBRun
  split
  · split
    · split
      · intro h
        cases h
      · intro h
        cases h
    · intro h
      cases h
  · split
    · intro h
      cases h
    · dsimp only
      split
      · split
        · intro h
          cases h
        · intro h
          cases h
      · intro h
        cases h

/-- **C4.** When at least one header is unresolved and the run is not in
sloppy mode, `mainRun` reports the full missing list and stops with the
initial state untouched — before any compiler invocation; in sloppy mode
the run never stops with the missing-headers abort but proceeds to the
build phase. -/
theorem claim4 : ∀ (w : World) (o : Options) (srcs incls : List String)
    (dirBase : String) (st : BuildState),
    srcs ≠ [] →
    ((checkMissingHeaders st.fs incls (discoverLocalIncludeDirs st.fs)
        (discoverSystemIncludeDirs st.fs) ≠ [] →
      o.sloppy = false →
      mainRun w o srcs incls dirBase st =
        (BuildOutcome.missingHeadersFatal
          (checkMissingHeaders st.fs incls (discoverLocalIncludeDirs st.fs)
            (discoverSystemIncludeDirs st.fs)), st))
    ∧ (o.sloppy = true →
        ∀ r, (mainRun w o srcs incls dirBase st).1
          ≠ BuildOutcome.missingHeadersFatal r)) := by
  intro w o srcs incls dirBase st hne
  have hempty : srcs.isEmpty = false := by
    cases srcs with
    | nil => exact absurd rfl hne
    | cons a t => rfl
  constructor
  · intro hmiss hslop
    unfold mainRun
    rw [hempty]
    simp only [Bool.false_eq_true, if_false]
    rw [if_pos]
    · rw [if_pos]
      · rw [pkgDiscovery_reported]
      · rw [pkgDiscovery_proceed]
        simp [hslop]
    · simp only [Bool.not_eq_true']
      rw [← Bool.not_eq_true]
      intro hc
      exact hmiss (List.isEmpty_iff.mp hc)
  · intro hslop r
    unfold mainRun
    rw [hempty]
    simp only [Bool.false_eq_true, if_false]
    split
    · rw [if_neg]
      · exact buildPhase_ne_missing _ _ _ _ _
      · rw [pkgDiscovery_proceed]
        simp [hslop]
    · exact buildPhase_ne_missing _ _ _ _ _

/-- Witness for C4: one source including `boost/lexical_cast.hpp`, no
satisfying path, non-sloppy mode: the run aborts with exactly that header
reported and the state unchanged. -/
theorem claim4_witness :
    mainRun allOkWorld defaultOpts ["x.cpp"] ["boost/lexical_cast.hpp"] "app" stScenA =
      (BuildOutcome.missingHeadersFatal ["boost/lexical_cast.hpp"], stScenA) :=
  (claim4 allOkWorld defaultOpts ["x.cpp"] ["boost/lexical_cast.hpp"] "app" stScenA
    (by decide)).1 (by decide) rfl

/-! ## Staleness invariants (for the idempotence and cache-discipline
claims) -/

/-- Every existing file's mtime lies strictly below the clock: any file
written from now on is at least as new as everything present.  This models
real time moving forward. -/
def WFclock (st : BuildState) : Prop :=
  ∀ p v, alookup st.fs p = some v → v < st.clock

/-- The staleness check reports nothing to do for `s`. -/
def fresh (s : String) (st : BuildState) : Prop :=
  needsRebuild s (objOf s) st.fs st.cache = false

/-- Number of cache writes recorded for source `s` in a trace. -/
def cacheUpdateCount (s : String) : List Event → Nat
  | [] => 0
  | Event.cacheUpdate q _ :: t => (if q == s then 1 else 0) + cacheUpdateCount s t
  | _ :: t => cacheUpdateCount s t

theorem alookup_ainsert_self : ∀ (l : List (String × Int)) (k : String) (v : Int),
    alookup (ainsert k v l) k = some v := by
  intro l k v
  induction l with
  | nil => simp [ainsert, alookup]
  | cons kv t ih =>
    obtain ⟨a, b⟩ := kv
    by_cases h : (a == k) = true
    · simp [ainsert, alookup, h]
    · simp only [ainsert, h, Bool.false_eq_true, if_false]
      simp [alookup, h, ih]

theorem alookup_ainsert_ne : ∀ (l : List (String × Int)) (k q : String) (v : Int),
    k ≠ q → alookup (ainsert k v l) q = alookup l q := by
  intro l k q v hne
  induction l with
  | nil =>
    simp only [ainsert, alookup]
    rw [if_neg (by simpa using hne)]
  | cons kv t ih =>
    obtain ⟨a, b⟩ := kv
    by_cases h : (a == k) = true
    · have hak : a = k := eq_of_beq h
      simp only [ainsert, h, if_true]
      rw [alookup, alookup, if_neg (by simpa [hak] using hne), if_neg (by simpa [hak] using hne)]
    · simp only [ainsert, h, Bool.false_eq_true, if_false]
      rw [alookup, alookup]
      by_cases haq : (a == q) = true
      · rw [if_pos haq, if_pos haq]
      · rw [if_neg haq, if_neg haq]
        exact ih

theorem alookup_mem : ∀ (l : List (String × Int)) (p : String) (v : Int),
    alookup l p = some v → ∃ k, (k, v) ∈ l := by
  intro l p v
  induction l with
  | nil => intro h; cases h
  | cons kv t ih =>
    obtain ⟨a, b⟩ := kv
    intro h
    rw [alookup] at h
    by_cases hap : (a == p) = true
    · rw [if_pos hap] at h
      cases h
      exact ⟨a, List.mem_cons_self _ _⟩
    · rw [if_neg hap] at h
      obtain ⟨k, hk⟩ := ih h
      exact ⟨k, List.mem_cons_of_mem _ hk⟩

/-- Establish `WFclock` for a concrete state by evaluation. -/
theorem WFclock_of_all : ∀ (st : BuildState),
    st.fs.all (fun kv => decide (kv.2 < st.clock)) = true → WFclock st := by
  intro st hall p v h
  obtain ⟨k, hk⟩ := alookup_mem st.fs p v h
  have := List.all_eq_true.mp hall _ hk
  exact of_decide_eq_true this

/-- Derived object paths always end in `".o"`. -/
theorem endsInDotO_objOf : ∀ s : String, endsInDotO (objOf s) = true := by
  intro s
  show chListStartsWith (strCat (goTrimSuffix (goBase s) (goExt s)) ".o").data.reverse
    ['o', '.'] = true
  rw [strCat]
  show chListStartsWith (((goTrimSuffix (goBase s) (goExt s)).data ++ ['.', 'o']).reverse)
    ['o', '.'] = true
  rw [List.reverse_append]
  simp [chListStartsWith]

/-- A path that does not end in `".o"` is never a derived object path. -/
theorem ne_objOf_of_not_dotO : ∀ (q s : String), endsInDotO q = false → objOf s ≠ q := by
  intro q s hq heq
  rw [← heq] at hq
  rw [endsInDotO_objOf s] at hq
  cases hq

/-- Characterization of a negative staleness check. -/
theorem needsRebuild_false_iff : ∀ (s obj : String) (fs cache : List (String × Int)),
    needsRebuild s obj fs cache = false ↔
      ∃ t m, alookup fs obj = some t ∧ alookup fs s = some m ∧ ¬ t < m
        ∧ cacheGet cache s = m := by
  intro s obj fs cache
  unfold needsRebuild
  split
  case h_1 hobj =>
    constructor
    · intro h
      exact absurd h (by decide)
    · rintro ⟨t', m', ht', hm', hlt', hc⟩
      rw [hobj] at ht'
      cases ht'
  case h_2 t hobj =>
    split
    case h_1 hsrc =>
      constructor
      · intro h
        exact absurd h (by decide)
      · rintro ⟨t', m', ht', hm', hlt', hc⟩
        rw [hsrc] at hm'
        cases hm'
    case h_2 m hsrc =>
      by_cases hlt : t < m
      · rw [if_pos hlt]
        constructor
        · intro h
          exact absurd h (by decide)
        · rintro ⟨t', m', ht', hm', hlt', hc⟩
          rw [hobj] at ht'
          cases ht'
          rw [hsrc] at hm'
          cases hm'
          exact absurd hlt hlt'
      · rw [if_neg hlt]
        simp only [Bool.not_eq_false', beq_iff_eq]
        constructor
        · intro h
          exact ⟨t, m, hobj, hsrc, hlt, h⟩
        · rintro ⟨t', m', ht', hm', hlt', hc⟩
          rw [hobj] at ht'
          cases ht'
          rw [hsrc] at hm'
          cases hm'
          exact hc

/-- Writing a fresh-clock file anywhere except at the source itself
preserves a negative staleness check. -/
theorem fresh_fsWrite : ∀ (st : BuildState) (q p : String),
    WFclock st → fresh q st → p ≠ q →
    needsRebuild q (objOf q) (ainsert p st.clock st.fs) st.cache = false := by
  intro st q p hwf hq hne
  rw [fresh, needsRebuild_false_iff] at hq
  obtain ⟨t, m, hobj, hsrc, hlt, hc⟩ := hq
  rw [needsRebuild_false_iff]
  by_cases hpo : p = objOf q
  · refine ⟨st.clock, m, ?_, ?_, ?_, hc⟩
    · rw [hpo, alookup_ainsert_self]
    · rw [alookup_ainsert_ne _ _ _ _ hne, hsrc]
    · have := hwf q m hsrc
      omega
  · refine ⟨t, m, ?_, ?_, hlt, hc⟩
    · rw [alookup_ainsert_ne _ _ _ _ hpo, hobj]
    · rw [alookup_ainsert_ne _ _ _ _ hne, hsrc]

/-- A cache write for another source preserves a negative staleness
check. -/
theorem fresh_cacheExt : ∀ (fs cache : List (String × Int)) (q k : String) (v : Int),
    needsRebuild q (objOf q) fs cache = false → k ≠ q →
    needsRebuild q (objOf q) fs (ainsert k v cache) = false := by
  intro fs cache q k v hq hne
  rw [needsRebuild_false_iff] at hq ⊢
  obtain ⟨t, m, hobj, hsrc, hlt, hc⟩ := hq
  refine ⟨t, m, hobj, hsrc, hlt, ?_⟩
  rw [cacheGet, alookup_ainsert_ne _ _ _ _ hne]
  exact hc

/-- Writing one file at the current clock preserves the clock bound. -/
theorem WF_ainsert : ∀ (fs : List (String × Int)) (clock : Int) (p : String),
    (∀ p' v, alookup fs p' = some v → v < clock) →
    (∀ p' v, alookup (ainsert p clock fs) p' = some v → v < clock + 1) := by
  intro fs clock p hwf p' v hp'
  by_cases hpp : p = p'
  · rw [← hpp, alookup_ainsert_self] at hp'
    cases hp'
    omega
  · rw [alookup_ainsert_ne _ _ _ _ hpp] at hp'
    have := hwf p' v hp'
    omega

/-- If the staleness check says fresh, `compileOne` only records the
evaluation and does nothing else. -/
theorem compileOne_skip : ∀ (w : World) (o : Options) (st : BuildState) (s : String),
    needsRebuild s (objOf s) st.fs st.cache = false →
    compileOne w o st s =
      (Except.ok (objOf s), { st with events := st.events ++ [Event.evalSrc s] }) := by
  intro w o st s h
  simp only [compileOne, h]
  rfl

/-- Structural effects of one `compileOne` call: the clock never goes
back, only the derived object path is written, only this source's cache
entry changes, events are appended, the save flag is untouched, and the
clock bound is preserved. -/
theorem compileOne_props : ∀ (w : World) (o : Options) (st : BuildState) (s : String)
    (r : Except Unit String) (st' : BuildState),
    compileOne w o st s = (r, st') →
    st.clock ≤ st'.clock
    ∧ (∀ q, q ≠ objOf s → alookup st'.fs q = alookup st.fs q)
    ∧ (∀ q, q ≠ s → alookup st'.cache q = alookup st.cache q)
    ∧ (∃ d, st'.events = st.events ++ d)
    ∧ st'.cacheSaved = st.cacheSaved
    ∧ (WFclock st → WFclock st') := by
  intro w o st s r st' h
  simp only [compileOne] at h
  split at h
  · split at h
    · split at h
      case h_1 m heq =>
        cases h
        refine ⟨by show st.clock ≤ st.clock + 1; omega, ?_, ?_,
          ⟨[Event.evalSrc s, Event.compile s (objOf s), Event.cacheUpdate s m],
            by simp⟩, rfl, ?_⟩
        · intro q hq
          exact alookup_ainsert_ne _ _ _ _ (Ne.symm hq)
        · intro q hq
          exact alookup_ainsert_ne _ _ _ _ (Ne.symm hq)
        · intro hwf
          exact WF_ainsert st.fs st.clock (objOf s) hwf
      case h_2 heq =>
        cases h
        refine ⟨by show st.clock ≤ st.clock + 1; omega, ?_, fun q _ => rfl,
          ⟨[Event.evalSrc s, Event.compile s (objOf s)], by simp⟩, rfl, ?_⟩
        · intro q hq
          exact alookup_ainsert_ne _ _ _ _ (Ne.symm hq)
        · intro hwf
          exact WF_ainsert st.fs st.clock (objOf s) hwf
    · cases h
      exact ⟨le_refl _, fun q _ => rfl, fun q _ => rfl,
        ⟨[Event.evalSrc s, Event.compile s (objOf s)], by simp⟩, rfl, fun hwf => hwf⟩
  · cases h
    exact ⟨le_refl _, fun q _ => rfl, fun q _ => rfl,
      ⟨[Event.evalSrc s], by simp⟩, rfl, fun hwf => hwf⟩

/-- After a successful `compileOne` of an existing, non-object-named
source, the source is fresh. -/
theorem fresh_of_compileOne_ok : ∀ (w : World) (o : Options) (st : BuildState)
    (s obj : String) (st' : BuildState),
    WFclock st → (alookup st.fs s).isSome = true → endsInDotO s = false →
    compileOne w o st s = (Except.ok obj, st') → fresh s st' := by
  intro w o st s obj st' hwf hsome hdot h
  have hne : objOf s ≠ s := ne_objOf_of_not_dotO s s hdot
  obtain ⟨m, hm⟩ : ∃ m, alookup st.fs s = some m := by
    cases hx : alookup st.fs s with
    | none => rw [hx] at hsome; cases hsome
    | some m => exact ⟨m, rfl⟩
  simp only [compileOne] at h
  split at h
  case isTrue hreb =>
    split at h
    case isTrue hcmd =>
      split at h
      case h_1 t heq =>
        have hts : alookup (ainsert (objOf s) st.clock st.fs) s = some m := by
          rw [alookup_ainsert_ne _ _ _ _ hne]
          exact hm
        rw [hts] at heq
        cases heq
        cases h
        rw [fresh, needsRebuild_false_iff]
        refine ⟨st.clock, m, ?_, ?_, ?_, ?_⟩
        · exact alookup_ainsert_self _ _ _
        · rw [alookup_ainsert_ne _ _ _ _ hne]
          exact hm
        · have := hwf s m hm
          omega
        · rw [cacheGet, alookup_ainsert_self]
          rfl
      case h_2 heq =>
        rw [alookup_ainsert_ne _ _ _ _ hne, hm] at heq
        cases heq
    case isFalse hcmd =>
      simp at h
  case isFalse hreb =>
    cases h
    show needsRebuild s (objOf s) st.fs st.cache = false
    cases hb : needsRebuild s (objOf s) st.fs st.cache
    · rfl
    · exact absurd hb hreb

/-- `compileOne` on any source preserves freshness of every
non-object-named source. -/
theorem fresh_pres_compileOne : ∀ (w : World) (o : Options) (st : BuildState)
    (s q : String) (r : Except Unit String) (st' : BuildState),
    WFclock st → endsInDotO q = false → fresh q st →
    compileOne w o st s = (r, st') → fresh q st' := by
  intro w o st s q r st' hwf hdot hq h
  by_cases hsq : s = q
  · subst hsq
    rw [compileOne_skip w o st s hq] at h
    cases h
    exact hq
  · simp only [compileOne] at h
    split at h
    · split at h
      · split at h
        · rename_i t heq
          cases h
          show needsRebuild q (objOf q) _ _ = false
          exact fresh_cacheExt _ _ q s t
            (fresh_fsWrite st q (objOf s) hwf hq (ne_objOf_of_not_dotO q s hdot)) hsq
        · rename_i heq
          cases h
          show needsRebuild q (objOf q) _ _ = false
          exact fresh_fsWrite st q (objOf s) hwf hq (ne_objOf_of_not_dotO q s hdot)
      · cases h
        exact hq
    · cases h
      exact hq

/-- Counting over an appended trace. -/
theorem cacheUpdateCount_append : ∀ (s : String) (e1 e2 : List Event),
    cacheUpdateCount s (e1 ++ e2) = cacheUpdateCount s e1 + cacheUpdateCount s e2 := by
  intro s e1
  induction e1 with
  | nil =>
    intro e2
    rw [List.nil_append]
    show cacheUpdateCount s e2 = 0 + cacheUpdateCount s e2
    omega
  | cons e t ih =>
    intro e2
    rw [List.cons_append]
    cases e
    case cacheUpdate qq tt =>
      show (if qq == s then 1 else 0) + cacheUpdateCount s (t ++ e2)
        = (if qq == s then 1 else 0) + cacheUpdateCount s t + cacheUpdateCount s e2
      rw [ih e2]
      omega
    all_goals
      show cacheUpdateCount s (t ++ e2) = cacheUpdateCount s t + cacheUpdateCount s e2
    all_goals exact ih e2

/-- One `compileOne` call records at most one cache update, and only for
its own source. -/
theorem compileOne_updates : ∀ (w : World) (o : Options) (st : BuildState)
    (s : String) (r : Except Unit String) (st' : BuildState) (q : String),
    compileOne w o st s = (r, st') →
    cacheUpdateCount q st'.events ≤ cacheUpdateCount q st.events
      + (if q = s then 1 else 0) := by
  intro w o st s r st' q h
  simp only [compileOne] at h
  split at h
  · split at h
    · split at h
      case h_1 t heq =>
        cases h
        show cacheUpdateCount q (st.events ++ [Event.evalSrc s]
          ++ [Event.compile s (objOf s)] ++ [Event.cacheUpdate s t]) ≤ _
        rw [cacheUpdateCount_append, cacheUpdateCount_append, cacheUpdateCount_append]
        show cacheUpdateCount q st.events + 0 + 0 + ((if (s == q) then 1 else 0) + 0)
          ≤ cacheUpdateCount q st.events + (if q = s then 1 else 0)
        by_cases hqs : q = s
        · subst hqs
          rw [if_pos rfl, if_pos (beq_self_eq_true q)]
        · have hsq : (s == q) = false := by
            simp [Ne.symm hqs]
          rw [if_neg hqs, if_neg (by simp [hsq])]
      case h_2 heq =>
        cases h
        show cacheUpdateCount q (st.events ++ [Event.evalSrc s]
          ++ [Event.compile s (objOf s)]) ≤ _
        rw [cacheUpdateCount_append, cacheUpdateCount_append]
        show cacheUpdateCount q st.events + 0 + 0
          ≤ cacheUpdateCount q st.events + (if q = s then 1 else 0)
        omega
    · cases h
      show cacheUpdateCount q (st.events ++ [Event.evalSrc s]
        ++ [Event.compile s (objOf s)]) ≤ _
      rw [cacheUpdateCount_append, cacheUpdateCount_append]
      show cacheUpdateCount q st.events + 0 + 0
        ≤ cacheUpdateCount q st.events + (if q = s then 1 else 0)
      omega
  · cases h
    show cacheUpdateCount q (st.events ++ [Event.evalSrc s]) ≤ _
    rw [cacheUpdateCount_append]
    show cacheUpdateCount q st.events + 0
      ≤ cacheUpdateCount q st.events + (if q = s then 1 else 0)
    omega

/-- Structural effects of one `linkObjects` call: cache untouched, exactly
one link event appended, only the output path written, clock bound kept. -/
theorem linkObjects_props : ∀ (w : World) (o : Options) (objs : List String)
    (out : String) (st : BuildState) (r : Except Unit Unit) (st' : BuildState),
    linkObjects w o objs out st = (r, st') →
    st'.cache = st.cache
    ∧ st.clock ≤ st'.clock
    ∧ (∀ q, q ≠ out → alookup st'.fs q = alookup st.fs q)
    ∧ st'.events = st.events ++ [Event.link objs out]
    ∧ st'.cacheSaved = st.cacheSaved
    ∧ (WFclock st → WFclock st') := by
  intro w o objs out st r st' h
  simp only [linkObjects] at h
  split at h
  · cases h
    refine ⟨rfl, by show st.clock ≤ st.clock + 1; omega, ?_, rfl, rfl, ?_⟩
    · intro q hq
      exact alookup_ainsert_ne _ _ _ _ (Ne.symm hq)
    · intro hwf
      exact WF_ainsert st.fs st.clock out hwf
  · cases h
    exact ⟨rfl, le_refl _, fun q _ => rfl, rfl, rfl, fun hwf => hwf⟩

/-- Invariants of the compile loop: the clock only advances, only object
artifacts are written, freshness of non-object paths is preserved, events
are appended, and — when the loop succeeds — every processed source ends
up fresh. -/
theorem compileSources_inv : ∀ (srcs : List String) (w : World) (o : Options)
    (tm : Bool) (st : BuildState) (r : Except Unit (List String)) (st' : BuildState),
    compileSources w o tm srcs st = (r, st') →
    WFclock st →
    (∀ s ∈ srcs, endsInDotO s = false) →
    (∀ s ∈ srcs, (alookup st.fs s).isSome = true) →
    WFclock st'
    ∧ st.clock ≤ st'.clock
    ∧ (∀ q, endsInDotO q = false → alookup st'.fs q = alookup st.fs q)
    ∧ (∀ q, endsInDotO q = false → fresh q st → fresh q st')
    ∧ (∃ d, st'.events = st.events ++ d)
    ∧ (∀ objs, r = Except.ok objs →
        ∀ s ∈ srcs, (tm = true ∨ isTestSource s = false) → fresh s st') := by
  intro srcs
  induction srcs with
  | nil =>
    intro w o tm st r st' h hwf hdot hsome
    simp only [compileSources] at h
    cases h
    refine ⟨hwf, le_refl _, fun q _ => rfl, fun q _ hq => hq, ⟨[], by simp⟩, ?_⟩
    intro objs _ s hs
    exact absurd hs (List.not_mem_nil s)
  | cons a rest ih =>
    intro w o tm st r st' h hwf hdot hsome
    simp only [compileSources] at h
    split at h
    case isTrue hskip =>
      have hrec := ih w o tm st r st' h hwf
        (fun s hs => hdot s (List.mem_cons_of_mem _ hs))
        (fun s hs => hsome s (List.mem_cons_of_mem _ hs))
      obtain ⟨h1, h2, h3, h4, h5, h6⟩ := hrec
      refine ⟨h1, h2, h3, h4, h5, ?_⟩
      intro objs hobjs s hs hcond
      rcases List.mem_cons.mp hs with hsa | hs'
      · rcases hcond with hc | hc
        · rw [hc] at hskip
          simp at hskip
        · rw [hsa] at hc
          rw [hc] at hskip
          simp at hskip
      · exact h6 objs hobjs s hs' hcond
    case isFalse hskip =>
      rcases heq1 : compileOne w o st a with ⟨r1, st1⟩
      rw [heq1] at h
      cases r1 with
      | ok obj =>
        dsimp only at h
        have hco := compileOne_props w o st a _ st1 heq1
        obtain ⟨hc1, hc2, hc3, ⟨d1, hd1⟩, hc5, hc6⟩ := hco
        have hwf1 : WFclock st1 := hc6 hwf
        have hdota : endsInDotO a = false := hdot a (List.mem_cons_self _ _)
        have hsome1 : ∀ s ∈ rest, (alookup st1.fs s).isSome = true := by
          intro s hs
          rw [hc2 s (Ne.symm (ne_objOf_of_not_dotO s a
            (hdot s (List.mem_cons_of_mem _ hs))))]
          exact hsome s (List.mem_cons_of_mem _ hs)
        rcases heq2 : compileSources w o tm rest st1 with ⟨r2, st2⟩
        rw [heq2] at h
        cases r2 with
        | ok objs2 =>
          dsimp only at h
          cases h
          have hrec := ih w o tm st1 _ st' heq2 hwf1
            (fun s hs => hdot s (List.mem_cons_of_mem _ hs)) hsome1
          obtain ⟨h1, h2, h3, h4, ⟨d2, hd2⟩, h6⟩ := hrec
          refine ⟨h1, le_trans hc1 h2, ?_, ?_, ?_, ?_⟩
          · intro q hq
            rw [h3 q hq, hc2 q (Ne.symm (ne_objOf_of_not_dotO q a hq))]
          · intro q hq hfq
            exact h4 q hq (fresh_pres_compileOne w o st a q _ st1 hwf hq hfq heq1)
          · exact ⟨d1 ++ d2, by rw [hd2, hd1, List.append_assoc]⟩
          · intro objs hobjs s hs hcond
            rcases List.mem_cons.mp hs with hsa | hs'
            · rw [hsa]
              refine h4 a hdota ?_
              exact fresh_of_compileOne_ok w o st a obj st1 hwf
                (hsome a (List.mem_cons_self _ _)) hdota heq1
            · exact h6 objs2 rfl s hs' hcond
        | error e2 =>
          dsimp only at h
          cases h
          have hrec := ih w o tm st1 _ st' heq2 hwf1
            (fun s hs => hdot s (List.mem_cons_of_mem _ hs)) hsome1
          obtain ⟨h1, h2, h3, h4, ⟨d2, hd2⟩, h6⟩ := hrec
          refine ⟨h1, le_trans hc1 h2, ?_, ?_, ?_, ?_⟩
          · intro q hq
            rw [h3 q hq, hc2 q (Ne.symm (ne_objOf_of_not_dotO q a hq))]
          · intro q hq hfq
            exact h4 q hq (fresh_pres_compileOne w o st a q _ st1 hwf hq hfq heq1)
          · exact ⟨d1 ++ d2, by rw [hd2, hd1, List.append_assoc]⟩
          · intro objs hobjs
            cases hobjs
      | error e1 =>
        dsimp only at h
        cases h
        have hco := compileOne_props w o st a _ st' heq1
        obtain ⟨hc1, hc2, hc3, ⟨d1, hd1⟩, hc5, hc6⟩ := hco
        refine ⟨hc6 hwf, hc1, ?_, ?_, ⟨d1, hd1⟩, ?_⟩
        · intro q hq
          exact hc2 q (Ne.symm (ne_objOf_of_not_dotO q a hq))
        · intro q hq hfq
          exact fresh_pres_compileOne w o st a q _ st' hwf hq hfq heq1
        · intro objs hobjs
          cases hobjs

/-- When every source the loop would process is already fresh, the
compile loop issues no compiler command at all: it only records the
staleness evaluations and succeeds with the derived object list. -/
theorem compileSources_all_fresh : ∀ (srcs : List String) (w : World) (o : Options)
    (tm : Bool) (st : BuildState),
    (∀ s ∈ srcs, (tm = true ∨ isTestSource s = false) → fresh s st) →
    compileSources w o tm srcs st =
      (Except.ok ((srcs.filter (fun s => tm || !isTestSource s)).map objOf),
       { st with events := st.events ++
           ((srcs.filter (fun s => tm || !isTestSource s)).map Event.evalSrc) }) := by
  intro srcs
  induction srcs with
  | nil =>
    intro w o tm st hfr
    simp only [compileSources, List.filter_nil, List.map_nil, List.append_nil]
  | cons a rest ih =>
    intro w o tm st hfr
    by_cases hskip : (!tm && isTestSource a) = true
    · have hcase : tm = false ∧ isTestSource a = true := by
        cases htm : tm
        · cases hta : isTestSource a
          · rw [htm, hta] at hskip
            exact Bool.noConfusion hskip
          · exact ⟨rfl, rfl⟩
        · rw [htm] at hskip
          exact Bool.noConfusion hskip
      have hcondf : (tm || !isTestSource a) = false := by
        rw [hcase.1, hcase.2]
        rfl
      simp only [compileSources, hskip, if_true]
      rw [List.filter_cons, hcondf]
      simp only [Bool.false_eq_true, if_false]
      exact ih w o tm st (fun s hs hc => hfr s (List.mem_cons_of_mem _ hs) hc)
    · have hcondt : (tm || !isTestSource a) = true := by
        cases htm : tm
        · cases hta : isTestSource a
          · rfl
          · exfalso
            apply hskip
            rw [htm, hta]
            decide
        · rfl
      have hfa : fresh a st := by
        refine hfr a (List.mem_cons_self _ _) ?_
        cases htm : tm
        · cases hta : isTestSource a
          · exact Or.inr rfl
          · exfalso
            apply hskip
            rw [htm, hta]
            decide
        · exact Or.inl rfl
      simp only [compileSources, hskip, Bool.false_eq_true, if_false]
      rw [compileOne_skip w o st a hfa]
      dsimp only
      rw [ih w o tm { st with events := st.events ++ [Event.evalSrc a] }
        (fun s hs hc => hfr s (List.mem_cons_of_mem _ hs) hc)]
      rw [List.filter_cons, hcondt]
      simp only [if_true, List.map_cons]
      rw [List.append_assoc]
      rfl

/-- In one pass of the compile loop over a duplicate-free source list,
each source's cache entry is written at most once. -/
theorem compileSources_updates : ∀ (srcs : List String) (w : World) (o : Options)
    (tm : Bool) (st : BuildState) (r : Except Unit (List String)) (st' : BuildState)
    (q : String),
    compileSources w o tm srcs st = (r, st') → srcs.Nodup →
    cacheUpdateCount q st'.events ≤ cacheUpdateCount q st.events
      + (if q ∈ srcs then 1 else 0) := by
  intro srcs
  induction srcs with
  | nil =>
    intro w o tm st r st' q h hnd
    simp only [compileSources] at h
    cases h
    rw [if_neg (List.not_mem_nil q)]
    omega
  | cons a rest ih =>
    intro w o tm st r st' q h hnd
    simp only [compileSources] at h
    split at h
    case isTrue hskip =>
      have hrec := ih w o tm st r st' q h (List.nodup_cons.mp hnd).2
      have hmono : (if q ∈ rest then 1 else 0) ≤ (if q ∈ a :: rest then 1 else 0) := by
        by_cases hin : q ∈ rest
        · rw [if_pos hin, if_pos (List.mem_cons_of_mem a hin)]
        · rw [if_neg hin]
          omega
      omega
    case isFalse hskip =>
      rcases heq1 : compileOne w o st a with ⟨r1, st1⟩
      rw [heq1] at h
      cases r1 with
      | ok obj =>
        dsimp only at h
        have hco := compileOne_updates w o st a _ st1 q heq1
        rcases heq2 : compileSources w o tm rest st1 with ⟨r2, st2⟩
        rw [heq2] at h
        have hstep : cacheUpdateCount q st2.events ≤ cacheUpdateCount q st.events
            + (if q = a then 1 else 0) + (if q ∈ rest then 1 else 0) := by
          have hr := ih w o tm st1 _ st2 q heq2 (List.nodup_cons.mp hnd).2
          omega
        have hbound : cacheUpdateCount q st2.events ≤ cacheUpdateCount q st.events
            + (if q ∈ a :: rest then 1 else 0) := by
          by_cases hqa : q = a
          · have hnotin : q ∉ rest := by
              rw [hqa]
              exact (List.nodup_cons.mp hnd).1
            rw [if_pos hqa, if_neg hnotin] at hstep
            rw [if_pos (by rw [hqa]; exact List.mem_cons_self _ _)]
            omega
          · rw [if_neg hqa] at hstep
            by_cases hin : q ∈ rest
            · rw [if_pos hin] at hstep
              rw [if_pos (List.mem_cons_of_mem a hin)]
              omega
            · rw [if_neg hin] at hstep
              omega
        cases r2 with
        | ok objs2 =>
          dsimp only at h
          cases h
          exact hbound
        | error e2 =>
          dsimp only at h
          cases h
          exact hbound
      | error e1 =>
        dsimp only at h
        cases h
        have hco := compileOne_updates w o st a _ st' q heq1
        by_cases hqa : q = a
        · rw [if_pos hqa] at hco
          rw [if_pos (by rw [hqa]; exact List.mem_cons_self _ _)]
          omega
        · rw [if_neg hqa] at hco
          by_cases hin : q ∈ a :: rest
          · rw [if_pos hin]
            omega
          · rw [if_neg hin]
            omega

/-- When every test source is already fresh and no test executable path
collides with a test source, the test loop never touches the cache: it
only evaluates, links and runs. -/
theorem runTestsLoop_fresh : ∀ (tests : List String) (w : World) (o : Options)
    (nobjs : List String) (st : BuildState) (r : Except Unit Unit) (st' : BuildState),
    WFclock st →
    (∀ t ∈ tests, fresh t st) →
    (∀ t ∈ tests, ∀ t' ∈ tests,
      ensureExeSuffix (goTrimSuffix (objOf t) ".o") o.win64Docker ≠ t') →
    runTestsLoop w o nobjs tests st = (r, st') →
    st'.cache = st.cache
    ∧ (∀ q, cacheUpdateCount q st'.events = cacheUpdateCount q st.events) := by
  intro tests
  induction tests with
  | nil =>
    intro w o nobjs st r st' hwf hfr hexe h
    simp only [runTestsLoop] at h
    cases h
    exact ⟨rfl, fun q => rfl⟩
  | cons t rest ih =>
    intro w o nobjs st r st' hwf hfr hexe h
    simp only [runTestsLoop] at h
    rw [compileOne_skip w o st t (hfr t (List.mem_cons_self _ _))] at h
    dsimp only at h
    rcases heql : linkObjects w o (objOf t :: nobjs)
        (ensureExeSuffix (goTrimSuffix (objOf t) ".o") o.win64Docker)
        { st with events := st.events ++ [Event.evalSrc t] } with ⟨rl, stl⟩
    rw [heql] at h
    have hlp := linkObjects_props w o (objOf t :: nobjs)
      (ensureExeSuffix (goTrimSuffix (objOf t) ".o") o.win64Docker)
      { st with events := st.events ++ [Event.evalSrc t] } rl stl heql
    obtain ⟨hl1, hl2, hl3, hl4, hl5, hl6⟩ := hlp
    have hcount_l : ∀ q, cacheUpdateCount q stl.events = cacheUpdateCount q st.events := by
      intro q
      rw [hl4]
      show cacheUpdateCount q ((st.events ++ [Event.evalSrc t]) ++ [Event.link _ _])
        = cacheUpdateCount q st.events
      rw [cacheUpdateCount_append, cacheUpdateCount_append]
      show cacheUpdateCount q st.events + 0 + 0 = cacheUpdateCount q st.events
      omega
    have hwfl : WFclock stl := hl6 (fun p v hp => hwf p v hp)
    have hfrl : ∀ t' ∈ rest, fresh t' stl := by
      intro t' ht'
      have hft' : fresh t' st := hfr t' (List.mem_cons_of_mem _ ht')
      have hneq : ensureExeSuffix (goTrimSuffix (objOf t) ".o") o.win64Docker ≠ t' :=
        hexe t (List.mem_cons_self _ _) t' (List.mem_cons_of_mem _ ht')
      show needsRebuild t' (objOf t') stl.fs stl.cache = false
      rw [hl1]
      cases rl with
      | ok u =>
        simp only [linkObjects] at heql
        split at heql
        · cases heql
          exact fresh_fsWrite { st with events := st.events ++ [Event.evalSrc t] }
            t' _ (fun p v hp => hwf p v hp) hft' hneq
        · cases heql
      | error e =>
        simp only [linkObjects] at heql
        split at heql
        · cases heql
        · cases heql
          exact hft'
    cases rl with
    | error e =>
      dsimp only at h
      cases h
      exact ⟨hl1, hcount_l⟩
    | ok u =>
      dsimp only at h
      split at h
      · -- win64Docker: continue without running
        have hrec := ih w o nobjs stl _ st' hwfl hfrl
          (fun ta hta tb htb =>
            hexe ta (List.mem_cons_of_mem _ hta) tb (List.mem_cons_of_mem _ htb)) h
        refine ⟨hrec.1.trans hl1, fun q => (hrec.2 q).trans (hcount_l q)⟩
      · split at h
        · -- test ran fine: recurse on the state with the runExe event
          have hwfl' : WFclock { stl with events := stl.events
              ++ [Event.runExe (ensureExeSuffix (goTrimSuffix (objOf t) ".o") o.win64Docker)] } :=
            fun p v hp => hwfl p v hp
          have hrec := ih w o nobjs _ _ st' hwfl' hfrl
            (fun ta hta tb htb =>
              hexe ta (List.mem_cons_of_mem _ hta) tb (List.mem_cons_of_mem _ htb)) h
          refine ⟨hrec.1.trans hl1, fun q => ?_⟩
          have h2 := hrec.2 q
          rw [h2]
          show cacheUpdateCount q (stl.events
            ++ [Event.runExe (ensureExeSuffix (goTrimSuffix (objOf t) ".o") o.win64Docker)]) = cacheUpdateCount q st.events
          rw [cacheUpdateCount_append]
          have := hcount_l q
          show cacheUpdateCount q stl.events + 0 = cacheUpdateCount q st.events
          omega
        · -- test failed: stop here
          cases h
          refine ⟨hl1, fun q => ?_⟩
          show cacheUpdateCount q (stl.events
            ++ [Event.runExe (ensureExeSuffix (goTrimSuffix (objOf t) ".o") o.win64Docker)]) = cacheUpdateCount q st.events
          rw [cacheUpdateCount_append]
          have := hcount_l q
          show cacheUpdateCount q stl.events + 0 = cacheUpdateCount q st.events
          omega

/-- A trace of pure staleness evaluations contains no cache write. -/
theorem map_evalSrc_count : ∀ (q : String) (l : List String),
    cacheUpdateCount q (l.map Event.evalSrc) = 0 := by
  intro q l
  induction l with
  | nil => rfl
  | cons a t ih =>
    show cacheUpdateCount q (t.map Event.evalSrc) = 0
    exact ih

/-- After a successful `compileAndLink` over walk-shaped sources whose
output artifact does not collide with a source, the clock bound holds and
every processed source is fresh. -/
theorem compileAndLink_fresh : ∀ (w : World) (o : Options) (st st' : BuildState),
    WFclock st →
    (∀ s ∈ o.sources, endsInDotO s = false) →
    (∀ s ∈ o.sources, (alookup st.fs s).isSome = true) →
    (∀ s ∈ o.sources, ensureExeSuffix o.outputName o.win64Docker ≠ s) →
    compileAndLink w o st = (Except.ok (), st') →
    WFclock st'
    ∧ (∀ s ∈ o.sources, (o.test = true ∨ isTestSource s = false) → fresh s st') := by
  intro w o st st' hwf hdot hsome hout h
  simp only [compileAndLink] at h
  rcases heq1 : compileSources w o o.test o.sources st with ⟨r1, st1⟩
  rw [heq1] at h
  cases r1 with
  | error e =>
    dsimp only at h
    simp at h
  | ok objs =>
    dsimp only at h
    have hinv := compileSources_inv o.sources w o o.test st _ st1 heq1 hwf hdot hsome
    obtain ⟨h1, h2, h3, h4, h5, h6⟩ := hinv
    have hfresh1 : ∀ s ∈ o.sources, (o.test = true ∨ isTestSource s = false) →
        fresh s st1 := h6 objs rfl
    simp only [linkObjects] at h
    split at h
    · cases h
      constructor
      · intro p v hp
        exact WF_ainsert st1.fs st1.clock _ (fun p' v' hp' => h1 p' v' hp') p v hp
      · intro s hs hcond
        show needsRebuild s (objOf s) _ _ = false
        exact fresh_fsWrite { st1 with events := st1.events
            ++ [Event.link objs (ensureExeSuffix o.outputName o.win64Docker)] }
          s (ensureExeSuffix o.outputName o.win64Docker)
          (fun p v hp => h1 p v hp) (hfresh1 s hs hcond) (hout s hs)
    · simp at h

/-- **C6.** After one successful Strategy-B `compileAndLink` run on
walk-shaped sources (sources exist, none named like an object, output
name not colliding with a source), `needsRebuild` is false for every
source the strategy processes; consequently a second run of the compile
loop on the resulting state issues no compile command — it only records
the staleness evaluations and succeeds. -/
theorem claim6 : ∀ (w : World) (o : Options) (st st' : BuildState),
    WFclock st →
    (∀ s ∈ o.sources, endsInDotO s = false) →
    (∀ s ∈ o.sources, (alookup st.fs s).isSome = true) →
    (∀ s ∈ o.sources, ensureExeSuffix o.outputName o.win64Docker ≠ s) →
    compileAndLink w o st = (Except.ok (), st') →
    (∀ s ∈ o.sources, (o.test = true ∨ isTestSource s = false) →
      needsRebuild s (objOf s) st'.fs st'.cache = false)
    ∧ compileSources w o o.test o.sources st' =
        (Except.ok ((o.sources.filter (fun s => o.test || !isTestSource s)).map objOf),
         { st' with events := st'.events ++
             ((o.sources.filter (fun s => o.test || !isTestSource s)).map
               Event.evalSrc) }) := by
  intro w o st st' hwf hdot hsome hout h
  obtain ⟨hwf', hfr⟩ := compileAndLink_fresh w o st st' hwf hdot hsome hout h
  exact ⟨hfr, compileSources_all_fresh o.sources w o o.test st' hfr⟩

/-- Options of the C6 witness run: one source `a.cpp`, output `a`. -/
def o6w : Options := { defaultOpts with sources := ["a.cpp"], outputName := "a" }

/-- Initial state of the C6 witness run. -/
def st6w : BuildState := ⟨[("a.cpp", 5)], [], 6, [], false⟩

/-- State after the first `compileAndLink` of the C6 witness run. -/
def st6wAfter : BuildState :=
  ⟨[("a.cpp", 5), ("a.o", 6), ("a", 7)], [("a.cpp", 5)], 8,
   [Event.evalSrc "a.cpp", Event.compile "a.cpp" "a.o", Event.cacheUpdate "a.cpp" 5,
    Event.link ["a.o"] "a"], false⟩

/-- Witness for C6 on a one-source project: after the first run the
source is fresh and the second compile loop only evaluates. -/
theorem claim6_witness :
    needsRebuild "a.cpp" (objOf "a.cpp") st6wAfter.fs st6wAfter.cache = false
    ∧ compileSources allOkWorld o6w o6w.test o6w.sources st6wAfter =
        (Except.ok ((o6w.sources.filter (fun s => o6w.test || !isTestSource s)).map objOf),
         { st6wAfter with events := st6wAfter.events ++
             ((o6w.sources.filter (fun s => o6w.test || !isTestSource s)).map
               Event.evalSrc) }) :=
  let hc6 := claim6 allOkWorld o6w st6w st6wAfter
    (WFclock_of_all st6w (by decide)) (by decide) (by decide) (by decide) rfl
  ⟨hc6.1 "a.cpp" (by decide) (Or.inr (by decide)), hc6.2⟩

/-- Number of staleness evaluations recorded for source `s` in a trace. -/
def evalCount (s : String) : List Event → Nat
  | [] => 0
  | Event.evalSrc q :: t => (if q == s then 1 else 0) + evalCount s t
  | _ :: t => evalCount s t

/-- **C7 (counterexample).** In a test-mode run (Scenario B), `main.cpp`
is staleness-evaluated twice within one run — once by `compileAndLink`
and once more by `buildAndRunTests` — refuting "each source is evaluated
at most once"; its cache entry is still updated only once. -/
theorem claim7_counterexample :
    evalCount "main.cpp"
      (mainRun allOkWorld testOpts scenBSrcs [] "src" stScenB).2.events = 2
    ∧ cacheUpdateCount "main.cpp"
      (mainRun allOkWorld testOpts scenBSrcs [] "src" stScenB).2.events = 1 :=
  ⟨rfl, rfl⟩

/-- **C7 (amended).** The staleness cache entry for a source is written,
with the source's current modification time, only right after the
compiler invocation for that exact source succeeds, and never when it
fails; and within one Strategy-B run (including the test phase) each
source is updated at most once — though a source may be staleness-
evaluated more than once when test mode is requested, such repeat
evaluations perform no update. -/
theorem claim7_amended :
    (∀ (w : World) (o : Options) (st : BuildState) (s : String)
      (r : Except Unit String) (st' : BuildState),
      endsInDotO s = false →
      compileOne w o st s = (r, st') →
      (w.runCmdOk (buildCompileCmd o s (objOf s)) = false → st'.cache = st.cache)
      ∧ (st'.cache ≠ st.cache →
          w.runCmdOk (buildCompileCmd o s (objOf s)) = true
          ∧ needsRebuild s (objOf s) st.fs st.cache = true
          ∧ ∃ m, alookup st.fs s = some m ∧ st'.cache = ainsert s m st.cache
              ∧ st'.events = st.events ++ [Event.evalSrc s,
                  Event.compile s (objOf s), Event.cacheUpdate s m]))
    ∧ (∀ (w : World) (o : Options) (st : BuildState) (out : BuildOutcome)
        (st' : BuildState),
        WFclock st →
        (∀ s ∈ o.sources, endsInDotO s = false) →
        (∀ s ∈ o.sources, (alookup st.fs s).isSome = true) →
        o.sources.Nodup →
        (∀ s ∈ o.sources, ensureExeSuffix o.outputName o.win64Docker ≠ s) →
        (∀ t ∈ o.testSources, t ∈ o.sources ∧ isTestSource t = true) →
        (∀ t ∈ o.testSources, ∀ s ∈ o.sources,
          ensureExeSuffix (goTrimSuffix (objOf t) ".o") o.win64Docker ≠ s) →
        strategyBRun w o st = (out, st') →
        ∀ q, cacheUpdateCount q st'.events ≤ cacheUpdateCount q st.events + 1) := by
  constructor
  · intro w o st s r st' hdot h
    have hne : objOf s ≠ s := ne_objOf_of_not_dotO s s hdot
    simp only [compileOne] at h
    split at h
    case isTrue hreb =>
      split at h
      case isTrue hcmd =>
        split at h
        · rename_i m heq
          cases h
          constructor
          · intro hfail
            rw [hcmd] at hfail
            cases hfail
          · intro _
            rw [alookup_ainsert_ne _ _ _ _ hne] at heq
            exact ⟨hcmd, hreb, m, heq, rfl, by simp⟩
        · rename_i heq
          cases h
          exact ⟨fun _ => rfl, fun hc => absurd rfl hc⟩
      case isFalse hcmd =>
        cases h
        exact ⟨fun _ => rfl, fun hc => absurd rfl hc⟩
    case isFalse hreb =>
      cases h
      exact ⟨fun _ => rfl, fun hc => absurd rfl hc⟩
  · intro w o st out st' hwf hdot hsome hnd hout htests hexe h q
    simp only [strategyBRun] at h
    rcases heq1 : compileAndLink w o st with ⟨r1, st1⟩
    rw [heq1] at h
    have hcl : cacheUpdateCount q st1.events ≤ cacheUpdateCount q st.events + 1 := by
      simp only [compileAndLink] at heq1
      rcases heq0 : compileSources w o o.test o.sources st with ⟨r0, st0⟩
      rw [heq0] at heq1
      cases r0 with
      | error e =>
        dsimp only at heq1
        cases heq1
        have := compileSources_updates o.sources w o o.test st _ st1 q heq0 hnd
        by_cases hin : q ∈ o.sources
        · rw [if_pos hin] at this
          omega
        · rw [if_neg hin] at this
          omega
      | ok objs =>
        dsimp only at heq1
        have hb := compileSources_updates o.sources w o o.test st _ st0 q heq0 hnd
        have hlp := linkObjects_props w o objs
          (ensureExeSuffix o.outputName o.win64Docker) st0 _ st1 heq1
        rw [hlp.2.2.2.1]
        rw [cacheUpdateCount_append]
        show cacheUpdateCount q st0.events + 0 ≤ _
        by_cases hin : q ∈ o.sources
        · rw [if_pos hin] at hb
          omega
        · rw [if_neg hin] at hb
          omega
    cases r1 with
    | error e =>
      dsimp only at h
      cases h
      exact hcl
    | ok u =>
      dsimp only at h
      split at h
      case isTrue htest =>
        have htt : o.test = true := by
          cases hot : o.test
          · rw [hot] at htest
            exact Bool.noConfusion htest
          · rfl
        have hfr := (compileAndLink_fresh w o st st1 hwf hdot hsome hout
          (by rw [heq1])).2
        have hwf1 : WFclock st1 :=
          (compileAndLink_fresh w o st st1 hwf hdot hsome hout (by rw [heq1])).1
        rcases heqB : buildAndRunTests w o { st1 with cacheSaved := true }
          with ⟨rB, stB⟩
        rw [heqB] at h
        have hfr2 : ∀ s ∈ o.sources, (false = true ∨ isTestSource s = false) →
            fresh s { st1 with cacheSaved := true } := by
          intro s hs _
          exact hfr s hs (Or.inl htt)
        have hBcount : cacheUpdateCount q stB.events = cacheUpdateCount q st1.events := by
          simp only [buildAndRunTests] at heqB
          rw [compileSources_all_fresh o.sources w o false
            { st1 with cacheSaved := true } hfr2] at heqB
          dsimp only at heqB
          have hrt := runTestsLoop_fresh o.testSources w o
            (List.map objOf (List.filter (fun s => false || !isTestSource s) o.sources))
            { st1 with
              events := st1.events ++ List.map Event.evalSrc
                (List.filter (fun s => false || !isTestSource s) o.sources),
              cacheSaved := true }
            rB stB
            (fun p v hp => hwf1 p v hp)
            (fun t ht => hfr t (htests t ht).1 (Or.inl htt))
            (fun ta hta tb htb => hexe ta hta tb (htests tb htb).1) heqB
          rw [hrt.2 q]
          show cacheUpdateCount q (st1.events ++ _) = _
          rw [cacheUpdateCount_append, map_evalSrc_count]
          omega
        cases rB with
        | error e =>
          dsimp only at h
          cases h
          omega
        | ok u2 =>
          dsimp only at h
          cases h
          omega
      case isFalse htest =>
        cases h
        exact hcl

/-- Options of the C7 witness run: one normal and one test source. -/
def o7w : Options :=
  { testOpts with
    sources := ["a.cpp", "a_test.cpp"]
    testSources := ["a_test.cpp"]
    outputName := "a" }

/-- Initial state of the C7 witness run. -/
def st7w : BuildState := ⟨[("a.cpp", 5), ("a_test.cpp", 5)], [], 6, [], false⟩

/-- Witness for C7 (amended): in a full Strategy-B run with tests, the
cache entry of `a.cpp` is written at most once. -/
theorem claim7_amended_witness :
    cacheUpdateCount "a.cpp"
      (strategyBRun allOkWorld o7w st7w).2.events
      ≤ cacheUpdateCount "a.cpp" st7w.events + 1 :=
  claim7_amended.2 allOkWorld o7w st7w
    (strategyBRun allOkWorld o7w st7w).1 (strategyBRun allOkWorld o7w st7w).2
    (WFclock_of_all st7w (by decide)) (by decide) (by decide) (by decide)
    (by decide) (by decide) (by decide) rfl "a.cpp"

end Cxx
